import Mathlib

/-!
# ChatWrapped transcript parser and analytics engine: a verification development

This file gives a shallow embedding of the WhatsApp-chat parser and analytics
engine (`TIMESTAMP_PATTERN`, `parseDate`, `detectDateFormat`, `parseChatFile`,
`analyzeMessages`) and proves the frozen claims about it.

Modelling conventions:
* Strings are `List Char` (`Str`); every character operated on in the claims'
  scenarios is in the Basic Multilingual Plane, where JavaScript UTF-16
  positions coincide with character positions (where a JS `length` count can
  differ — astral code points occupy two UTF-16 units — we model the UTF-16
  length explicitly, see `utf16Len`).
* JavaScript numbers are modelled as exact fractions (`Q`); all arithmetic the
  claims exercise (millisecond sums and differences, comparisons against
  integer thresholds, the three-quarters share test for day totals below
  `2 ^ 52`) is exact in IEEE double precision, so the rational model agrees
  with the runtime on every comparison appearing in a claim.
* A JavaScript `Date` holds an integral count of milliseconds since the epoch
  (the ES `TimeClip` operation truncates to an integer); a valid date is an
  `Int`, and the runtime time zone is modelled as UTC, making `getHours`,
  `getFullYear`, `getDay` and `toISOString` pure Gregorian-calendar functions
  of that integer.
* Host-environment Unicode tables (the emoji, letter and number properties,
  `toLowerCase`) and the navigator locale are abstracted into a `JsEnv`
  parameter; theorems quantify over it, witnesses use an explicit `asciiEnv`
  whose tables agree with the real ones on ASCII inputs.
-/

set_option maxRecDepth 8000

abbrev Str := List Char

/-- JavaScript whitespace class (WhiteSpace plus LineTerminator), the class
used by trim, whitespace splitting, and the timestamp pattern. -/
def jsIsSpace (c : Char) : Bool :=
  let n := c.toNat
  n = 0x20 || n = 0x09 || n = 0x0a || n = 0x0d || n = 0x0b || n = 0x0c ||
  n = 0xa0 || n = 0x1680 || (0x2000 ≤ n && n ≤ 0x200a) ||
  n = 0x2028 || n = 0x2029 || n = 0x202f || n = 0x205f || n = 0x3000 || n = 0xfeff

/-- JavaScript line terminators, the characters a dot never matches. -/
def jsIsLineTerm (c : Char) : Bool :=
  let n := c.toNat
  n = 0x0a || n = 0x0d || n = 0x2028 || n = 0x2029

def isAsciiDigit (c : Char) : Bool := '0' ≤ c && c ≤ '9'

def isAsciiLetter (c : Char) : Bool :=
  ('a' ≤ c && c ≤ 'z') || ('A' ≤ c && c ≤ 'Z')

/-- ASCII lower-casing, the effect of both case-insensitive matching and
lower-casing on ASCII letters. -/
def asciiLower (c : Char) : Char :=
  if 'A' ≤ c && c ≤ 'Z' then Char.ofNat (c.toNat + 32) else c

def asciiLowerStr (s : Str) : Str := s.map asciiLower

/-- Model of trim: strip JS whitespace from both ends. -/
def jsTrim (s : Str) : Str :=
  ((s.dropWhile jsIsSpace).reverse.dropWhile jsIsSpace).reverse

/-- Splitting a list at every character satisfying `p` (each single matching
character is a separator); empty groups are kept. -/
def splitOnPred (p : Char → Bool) : Str → List Str
  | [] => [[]]
  | c :: rest =>
    let r := splitOnPred p rest
    if p c then [] :: r
    else (c :: r.headI) :: r.tail

/-- The nonempty groups of a whitespace split: the token list the engine
computes by splitting on whitespace runs and dropping empty strings. -/
def spaceFields (s : Str) : List Str :=
  (splitOnPred jsIsSpace s).filter (· ≠ [])

/-- UTF-16 length of a string: astral code points occupy two code units. -/
def utf16Len (s : Str) : Nat :=
  s.foldl (fun n c => n + (if c.toNat ≥ 0x10000 then 2 else 1)) 0

/-- Whether `needle` occurs at the very start of `hay`. -/
def startsWithStr : Str → Str → Bool
  | _, [] => true
  | [], _ :: _ => false
  | c :: cs, d :: ds => c = d && startsWithStr cs ds

/-- Substring membership, JS `includes`. -/
def jsIncludes : Str → Str → Bool
  | hay, needle =>
    startsWithStr hay needle ||
    match hay with
    | [] => false
    | _ :: t => jsIncludes t needle

/-- JS `a || b` on strings: `a` unless it is empty (falsy). -/
def jsOrStr (a b : Str) : Str := if a = [] then b else a

def natOfDigits (ds : Str) : Nat :=
  ds.foldl (fun n c => n * 10 + (c.toNat - 48)) 0

/-- Exact fractions with a positive denominator, kept unnormalized: the model
of JavaScript numbers.  All arithmetic the claims exercise (millisecond sums
and differences, comparisons against integer thresholds, quotient
comparisons) is exact in IEEE double precision, so exact fractions agree with
the runtime on every comparison appearing in a claim.  Representations are
not reduced (no gcd), which changes nothing observable: numbers only reach
results through floors, rounds and comparisons, all representation
independent. -/
structure Q where
  num : Int
  den : Int
deriving DecidableEq, Repr

def Q.ofInt (n : Int) : Q := ⟨n, 1⟩

def Q.add (a b : Q) : Q := ⟨a.num * b.den + b.num * a.den, a.den * b.den⟩

def Q.mul (a b : Q) : Q := ⟨a.num * b.num, a.den * b.den⟩

def Q.neg (a : Q) : Q := ⟨-a.num, a.den⟩

/-- Exact division; the sign moves to the numerator so the denominator stays
positive. -/
def Q.div (a b : Q) : Q :=
  if b.num < 0 then ⟨-(a.num * b.den), a.den * (-b.num)⟩
  else ⟨a.num * b.den, a.den * b.num⟩

/-- Strict order by cross multiplication (denominators positive). -/
def Q.Lt (a b : Q) : Prop := a.num * b.den < b.num * a.den

def Q.Le (a b : Q) : Prop := a.num * b.den ≤ b.num * a.den

/-- Numeric (value) equality by cross multiplication. -/
def Q.Eq (a b : Q) : Prop := a.num * b.den = b.num * a.den

instance (a b : Q) : Decidable (Q.Lt a b) := by unfold Q.Lt; infer_instance
instance (a b : Q) : Decidable (Q.Le a b) := by unfold Q.Le; infer_instance
instance (a b : Q) : Decidable (Q.Eq a b) := by unfold Q.Eq; infer_instance

def Q.floor (a : Q) : Int := a.num.fdiv a.den

def Q.ceil (a : Q) : Int := -((-a.num).fdiv a.den)

/-- JS `Number(s)` for the strings this code feeds to it, as an exact
fraction; `none` is NaN.  Handles the empty string (0), an optional sign, a
run of digits, and an optional fractional part — covering every capture-group
substring the parser can produce (digit runs, and digit-dot-digit fragments
arising from dot-separated time tokens). -/
def jsNumber (s : Str) : Option Q :=
  let t := jsTrim s
  if t = [] then some (Q.ofInt 0)
  else
    let negative : Bool := match t with
      | '-' :: _ => true
      | _ => false
    let t2 : Str := match t with
      | '-' :: r => r
      | '+' :: r => r
      | r => r
    let ip := t2.takeWhile isAsciiDigit
    let rest := t2.dropWhile isAsciiDigit
    let withSign : Q → Q := fun q => if negative then q.neg else q
    match rest with
    | [] => if ip = [] then none else some (withSign (Q.ofInt (natOfDigits ip)))
    | '.' :: fr =>
      if fr.all isAsciiDigit ∧ (ip ≠ [] ∨ fr ≠ []) then
        some (withSign ⟨(natOfDigits ip : Int) * (10 : Int) ^ fr.length +
          (natOfDigits fr : Int), (10 : Int) ^ fr.length⟩)
      else none
    | _ => none

/-- ES ToIntegerOrInfinity on a finite value: truncation toward zero. -/
def jsTrunc (q : Q) : Int :=
  if 0 ≤ q.num then q.num.fdiv q.den else -((-q.num).fdiv q.den)

/-- JS `Math.round`: floor of the value plus one half (ties toward plus
infinity). -/
def jsRound (q : Q) : Int := Q.floor (Q.add q ⟨1, 2⟩)

def jsCeil (q : Q) : Int := Q.ceil q

-- ---------------------------------------------------------------------------
-- Gregorian calendar arithmetic (days ↔ civil date), UTC model of JS Date
-- ---------------------------------------------------------------------------

/-- Civil date from days since 1970-01-01 (proleptic Gregorian). -/
def civilFromDays (z0 : Int) : Int × Int × Int :=
  let z := z0 + 719468
  let era := z.fdiv 146097
  let doe := z - era * 146097
  let yoe := (doe - doe.fdiv 1460 + doe.fdiv 36524 - doe.fdiv 146096).fdiv 365
  let y := yoe + era * 400
  let doy := doe - (365 * yoe + yoe.fdiv 4 - yoe.fdiv 100)
  let mp := (5 * doy + 2).fdiv 153
  let d := doy - (153 * mp + 2).fdiv 5 + 1
  let m := mp + (if mp < 10 then 3 else -9)
  (y + (if m ≤ 2 then 1 else 0), m, d)

/-- Days since 1970-01-01 of a civil date (proleptic Gregorian). -/
def daysFromCivil (y m d : Int) : Int :=
  let y' := y - (if m ≤ 2 then 1 else 0)
  let era := y'.fdiv 400
  let yoe := y' - era * 400
  let doy := (153 * (m + (if m > 2 then -3 else 9)) + 2).fdiv 5 + d - 1
  let doe := yoe * 365 + yoe.fdiv 4 - yoe.fdiv 100 + doy
  era * 146097 + doe - 719468

/-- Model of `getFullYear` with a UTC runtime zone. -/
def dateGetFullYear (t : Int) : Int := (civilFromDays (t.fdiv 86400000)).1

/-- Model of `getHours` with a UTC runtime zone. -/
def dateGetHours (t : Int) : Int := (t.fdiv 3600000).emod 24

/-- Model of `getDay` (weekday, 0 = Sunday) with a UTC runtime zone. -/
def dateGetDay (t : Int) : Int := ((t.fdiv 86400000) + 4).emod 7

def decDigits (n : Nat) : Str := Nat.toDigits 10 n

def padLeft (w : Nat) (s : Str) : Str :=
  List.replicate (w - s.length) '0' ++ s

def pad2 (n : Int) : Str := padLeft 2 (decDigits n.toNat)
def pad3 (n : Int) : Str := padLeft 3 (decDigits n.toNat)
def pad4 (n : Int) : Str := padLeft 4 (decDigits n.toNat)
def pad6 (n : Int) : Str := padLeft 6 (decDigits n.toNat)

/-- The year field of the ISO string: four digits for years 0..9999,
otherwise the expanded signed six-digit form. -/
def isoYearStr (y : Int) : Str :=
  if 0 ≤ y ∧ y ≤ 9999 then pad4 y
  else if y > 9999 then '+' :: pad6 y
  else '-' :: pad6 (-y)

/-- Model of `toISOString` with a UTC runtime zone. -/
def toISOString (t : Int) : Str :=
  let day := t.fdiv 86400000
  let c := civilFromDays day
  isoYearStr c.1 ++ '-' :: pad2 c.2.1 ++ '-' :: pad2 c.2.2 ++
  'T' :: pad2 ((t.fdiv 3600000).emod 24) ++ ':' :: pad2 ((t.fdiv 60000).emod 60) ++
  ':' :: pad2 ((t.fdiv 1000).emod 60) ++ '.' :: pad3 (t.emod 1000) ++ ['Z']

/-- The calendar-day key the engine uses: the ISO string up to the first T. -/
def dateKeyOf (t : Int) : Str := (toISOString t).takeWhile (· ≠ 'T')

/-- The hour key: the first 13 UTF-16 units of the ISO string. -/
def hourKeyOf (t : Int) : Str := (toISOString t).take 13

/-- The minute key: the first 16 UTF-16 units of the ISO string. -/
def minKeyOf (t : Int) : Str := (toISOString t).take 16

def isLeapYear (y : Int) : Bool :=
  (y % 4 = 0 && y % 100 ≠ 0) || y % 400 = 0

def daysInMonth (y m : Int) : Int :=
  if m = 2 then (if isLeapYear y then 29 else 28)
  else if m = 4 ∨ m = 6 ∨ m = 9 ∨ m = 11 then 30 else 31

/-- Parsing a date-only ISO string (plain or expanded year) back to a time
value, as `new Date(dateStr)` does in the streak computation: UTC midnight of
that day, or `none` (an invalid date) for anything else. -/
def parseIsoKeyMs (s : Str) : Option Int :=
  let core : Option (Int × Str) :=
    match s with
    | '+' :: r =>
      let ds := r.takeWhile isAsciiDigit
      if ds.length = 6 then some ((natOfDigits ds : Int), r.drop 6) else none
    | '-' :: r =>
      let ds := r.takeWhile isAsciiDigit
      if ds.length = 6 then some (-(natOfDigits ds : Int), r.drop 6) else none
    | r =>
      let ds := r.takeWhile isAsciiDigit
      if ds.length = 4 then some ((natOfDigits ds : Int), r.drop 4) else none
  match core with
  | none => none
  | some (y, rest) =>
    match rest with
    | '-' :: m1 :: m2 :: '-' :: d1 :: d2 :: [] =>
      if isAsciiDigit m1 ∧ isAsciiDigit m2 ∧ isAsciiDigit d1 ∧ isAsciiDigit d2 then
        let m : Int := natOfDigits [m1, m2]
        let d : Int := natOfDigits [d1, d2]
        if 1 ≤ m ∧ m ≤ 12 ∧ 1 ≤ d ∧ d ≤ daysInMonth y m then
          some (daysFromCivil y m d * 86400000)
        else none
      else none
    | _ => none

-- ---------------------------------------------------------------------------
-- Insertion-ordered association lists (JS Map / plain-object model)
-- ---------------------------------------------------------------------------

namespace AL

/-- Map lookup on an insertion-ordered association list (first entry with the
key). -/
def find? : List (Str × α) → Str → Option α
  | [], _ => none
  | p :: rest, k => if p.1 = k then some p.2 else find? rest k

def keys (l : List (Str × α)) : List Str := l.map Prod.fst

/-- Updating the value at a key known to be present, in place. -/
def modify (l : List (Str × α)) (k : Str) (f : α → α) : List (Str × α) :=
  l.map (fun p => if p.1 = k then (p.1, f p.2) else p)

/-- Map update with default: update in place if the key exists, otherwise
append the entry (JS Maps keep keys in insertion order). -/
def upsert (l : List (Str × α)) (k : Str) (d : α) (f : α → α) : List (Str × α) :=
  if (find? l k).isSome then modify l k f else l ++ [(k, f d)]

/-- Increment of the counter stored at a key, defaulting to zero. -/
def bump (l : List (Str × Nat)) (k : Str) : List (Str × Nat) :=
  upsert l k 0 (· + 1)

def sumVals (l : List (Str × Nat)) : Nat := (l.map Prod.snd).sum

end AL

-- ---------------------------------------------------------------------------
-- TIMESTAMP_PATTERN: the unified timestamp-prefix grammar
-- ---------------------------------------------------------------------------

/-- A maximal digit run of length between `lo` and `hi`.  Because a digit can
never match the character class that follows each run in the pattern, the
backtracking regex accepts exactly when the maximal run length lies in the
bounds, so maximal munch is faithful. -/
def digitsBetween (lo hi : Nat) (s : Str) : Option (Str × Str) :=
  let ds := s.takeWhile isAsciiDigit
  if lo ≤ ds.length ∧ ds.length ≤ hi then some (ds, s.drop ds.length) else none

/-- Exactly `n` leading digits (further digits simply stay unconsumed). -/
def exactDigits (n : Nat) (s : Str) : Option (Str × Str) :=
  let ds := s.take n
  if ds.length = n ∧ ds.all isAsciiDigit then some (ds, s.drop n) else none

def charIn (cs : List Char) (s : Str) : Option (Char × Str) :=
  match s with
  | c :: r => if c ∈ cs then some (c, r) else none
  | [] => none

/-- One or two ASCII letters, greedily. -/
def takeLetters2 (s : Str) : Option (Str × Str) :=
  match s with
  | a :: b :: r =>
    if isAsciiLetter a then
      (if isAsciiLetter b then some ([a, b], r) else some ([a], b :: r))
    else none
  | [a] => if isAsciiLetter a then some ([a], []) else none
  | [] => none

/-- The TIMESTAMP_PATTERN matcher: an optional opening bracket, a date token
(one-to-four digits, a separator among dash dot slash, one-to-two digits, a
separator, two-to-four digits), an optional comma or dot, mandatory
whitespace, a time token (one-to-two digits, colon or dot, two digits,
optional seconds, optional meridiem of up to two letters after an optional
space), an optional closing bracket and an optional space-dash-space.
Returns the date capture, the time capture, and the unconsumed remainder of
the line.  Each local choice below reproduces the leftmost-greedy regex
semantics; since everything after the time token is optional, a greedy local
success is always the global match. -/
def stripLeadBracket (line : Str) : Str :=
  match line with
  | '[' :: r => r
  | r => r

def tsTime (r7 : Str) : Option (Str × Str) := do
  let (hh, r8) ← digitsBetween 1 2 r7
  let (tsep, r9) ← charIn [':', '.'] r8
  let (mm, r10) ← exactDigits 2 r9
  let (secPart, r11) : Str × Str :=
    match r10 with
    | c :: rest =>
      if c = ':' ∨ c = '.' then
        match exactDigits 2 rest with
        | some (ds, r') => (c :: ds, r')
        | none => ([], r10)
      else ([], r10)
    | [] => ([], r10)
  let (mer, r12) : Str × Str :=
    match r11 with
    | c :: rest =>
      if jsIsSpace c then
        match takeLetters2 rest with
        | some (ls, r') => (c :: ls, r')
        | none => ([], r11)
      else
        match takeLetters2 r11 with
        | some (ls, r') => (ls, r')
        | none => ([], r11)
    | [] => ([], r11)
  return (hh ++ tsep :: mm ++ secPart ++ mer, r12)

def tsClose (r12 : Str) : Str :=
  let r13 : Str := match r12 with
    | ']' :: r => r
    | _ => r12
  match r13 with
  | a :: b :: c :: r => if jsIsSpace a ∧ b = '-' ∧ jsIsSpace c then r else r13
  | _ => r13

def tsAfterDate (dateCap : Str) (r5 : Str) : Option (Str × Str × Str) := do
  let r6 : Str := match r5 with
    | c :: r => if c = ',' ∨ c = '.' then r else r5
    | [] => r5
  let ws := r6.takeWhile jsIsSpace
  guard (ws ≠ [])
  let r7 := r6.drop ws.length
  let (timeCap, r12) ← tsTime r7
  return (dateCap, timeCap, tsClose r12)

def tsMatch (line : Str) : Option (Str × Str × Str) := do
  let s1 := stripLeadBracket line
  let (d1, r1) ← digitsBetween 1 4 s1
  let (sep1, r2) ← charIn ['-', '.', '/'] r1
  let (d2, r3) ← digitsBetween 1 2 r2
  let (sep2, r4) ← charIn ['-', '.', '/'] r3
  let (d3, r5) ← digitsBetween 2 4 r4
  tsAfterDate (d1 ++ sep1 :: d2 ++ sep2 :: d3) r5

-- ---------------------------------------------------------------------------
-- parseDate, detectDateFormat, parseChatFile
-- ---------------------------------------------------------------------------

inductive DateFmt | DMY | MDY | YMD
deriving DecidableEq, Repr

/-- Replace the first dot by a colon (JS replace with a string pattern
replaces only the first occurrence). -/
def replaceFirstDot : Str → Str
  | [] => []
  | c :: r => if c = '.' then ':' :: r else c :: replaceFirstDot r

/-- The normalize-to-date helper: splits the date token on its separators,
reads the components in the order given by the detected format, promotes
two-digit years, applies meridiem corrections to the hour, and builds the
time value as the ES Date constructor does (component truncation, month
overflow into years, day overflow into months, final clip to the
8.64e15-millisecond range; an unrepresentable or non-numeric input gives an
invalid date, `none`). -/
def parseDate (dateStr timeStr : Str) (fmt : DateFmt) : Option Int :=
  let norm := dateStr.map (fun c => if c = '-' ∨ c = '.' then '/' else c)
  let parts := (splitOnPred (· = '/') norm).map jsNumber
  let p0 := parts.getD 0 none
  let p1 := parts.getD 1 none
  let p2 := parts.getD 2 none
  let (day, month, year0) : Option Q × Option Q × Option Q :=
    match fmt with
    | .YMD => (p2, p1, p0)
    | .MDY => (p1, p0, p2)
    | .DMY => (p0, p1, p2)
  let year : Option Q :=
    year0.map (fun y => if Q.Lt y (Q.ofInt 100) then Q.add y (Q.ofInt 2000) else y)
  let tparts := splitOnPred (fun c => c = ':' || jsIsSpace c) (replaceFirstDot timeStr)
  let hours0 : Option Q := match tparts.get? 0 with
    | some s => jsNumber s
    | none => none
  let minutes : Option Q := match tparts.get? 1 with
    | some s => jsNumber s
    | none => none
  let lowerTime := asciiLowerStr timeStr
  let isPM := jsIncludes lowerTime ['p', 'm'] || jsIncludes lowerTime ['p', '.', 'm']
  let isAM := jsIncludes lowerTime ['a', 'm'] || jsIncludes lowerTime ['a', '.', 'm']
  let hours : Option Q := hours0.map (fun h =>
    let h1 := if isPM ∧ Q.Lt h (Q.ofInt 12) then Q.add h (Q.ofInt 12) else h
    if isAM ∧ Q.Eq h1 (Q.ofInt 12) then Q.ofInt 0 else h1)
  match year, month, day, hours, minutes with
  | some y, some mo, some d, some h, some mi =>
    let yi := jsTrunc y
    let m0 := jsTrunc (Q.add mo (Q.ofInt (-1)))
    let di := jsTrunc d
    let hi := jsTrunc h
    let mii := jsTrunc mi
    let ym := yi + Int.fdiv m0 12
    let mn := Int.emod m0 12
    let dayNum := daysFromCivil ym (mn + 1) 1 + (di - 1)
    let total := dayNum * 86400000 + hi * 3600000 + mii * 60000
    if total.natAbs ≤ 8640000000000000 then some total else none
  | _, _, _, _, _ => none

def optGtB (a : Option Q) (b : Q) : Bool :=
  match a with
  | some q => decide (Q.Lt b q)
  | none => false

/-- The numeric value at position `i` of a date token split on its
separators (an out-of-range position is the undefined, NaN, value). -/
def dateComp (i : Nat) (d : Str) : Option Q :=
  (((splitOnPred (fun c => c = '-' || c = '.' || c = '/') d).map jsNumber).getD i none)

/-- The sampling loop of the date-order disambiguator: over the (at most 50)
sampled lines, break to year-first on a first component above 1000, otherwise
track the running maxima of the first and second components. -/
def dfScan : List Str → Q → Q → Bool × Q × Q
  | [], mf, ms => (false, mf, ms)
  | l :: rest, mf, ms =>
    match tsMatch l with
    | none => dfScan rest mf ms
    | some (d, _, _) =>
      let p0 := dateComp 0 d
      let p1 := dateComp 1 d
      if optGtB p0 (Q.ofInt 1000) then (true, mf, ms)
      else
        let mf' := match p0 with
          | some q => if Q.Lt mf q then q else mf
          | none => mf
        let ms' := match p1 with
          | some q => if Q.Lt ms q then q else ms
          | none => ms
        dfScan rest mf' ms'

/-- The date-order disambiguator: scan the first 50 lines, then decide
year-first, day-first, month-first, or fall back to the navigator locale. -/
def detectDateFormat (locale : Str) (lines : List Str) : DateFmt :=
  let r := dfScan (lines.take 50) (Q.ofInt 0) (Q.ofInt 0)
  if r.1 then .YMD
  else if Q.Lt (Q.ofInt 12) r.2.1 then .DMY
  else if Q.Lt (Q.ofInt 12) r.2.2 then .MDY
  else if startsWithStr (jsOrStr locale ("en-GB".toList)) ("en-US".toList) then .MDY
  else .DMY

structure Message where
  date : Int
  sender : Str
  content : Str
deriving DecidableEq, Repr

structure PResult where
  messages : List Message
  ok : Bool
  error : Option Str
deriving DecidableEq, Repr

/-- Strip the left-to-right and right-to-left marks. -/
def stripMarks (s : Str) : Str :=
  s.filter (fun c => c.toNat ≠ 0x200e ∧ c.toNat ≠ 0x200f)

/-- Split on CRLF or LF (a lone CR is not a separator). -/
def splitLines : Str → List Str
  | [] => [[]]
  | '\r' :: '\n' :: rest => [] :: splitLines rest
  | '\n' :: rest => [] :: splitLines rest
  | c :: rest =>
    let r := splitLines rest
    (c :: r.headI) :: r.tail

/-- One step of the parser's line loop.  The accumulator holds the emitted
messages in reverse order and whether the most recent one is still open for
continuation lines.  A matching line with a valid date and a colon emits a
message; a matching line without a colon closes the current message; a
matching line whose date is invalid changes nothing (the current message
stays open but the line is dropped); a non-matching line is appended to the
open message, newline-separated, or dropped. -/
def parseLine (fmt : DateFmt) (acc : List Message × Bool) (line : Str) :
    List Message × Bool :=
  let (msgsRev, lastActive) := acc
  match tsMatch line with
  | some (dateStr, timeStr, remainder) =>
    match parseDate dateStr timeStr fmt with
    | some date =>
      match remainder.findIdx? (· = ':') with
      | some i =>
        let sender := jsTrim (remainder.take i)
        let content := jsTrim (remainder.drop (i + 1))
        (⟨date, sender, content⟩ :: msgsRev, true)
      | none => (msgsRev, false)
    | none => acc
  | none =>
    if lastActive then
      match msgsRev with
      | m :: rest => ({ m with content := m.content ++ '\n' :: line } :: rest, true)
      | [] => acc
    else acc

/-- The whole-file parser on decoded text (the asynchronous file read that
surrounds it in the source is outside the model): reject empty input, strip
directional marks, split into lines, detect the date order, and run the line
loop. -/
def parseChatText (locale : Str) (text : Str) : PResult :=
  if text = [] then ⟨[], false, some ("File is empty".toList)⟩
  else
    let cleanText := stripMarks text
    let lines := splitLines cleanText
    let fmt := detectDateFormat locale lines
    let r := lines.foldl (parseLine fmt) ([], false)
    ⟨r.1.reverse, true, none⟩

-- ---------------------------------------------------------------------------
-- Analytics engine: vocabulary and host-environment abstraction
-- ---------------------------------------------------------------------------

/-- Host-environment Unicode facilities: the emoji-presentation property, the
letter and number general categories, and full `toLowerCase`.  These depend
only on the runtime's Unicode tables, never on the analysed data, so theorems
quantify over them. -/
structure JsEnv where
  isEmojiPresentation : Char → Bool
  isUnicodeLetter : Char → Bool
  isUnicodeNumber : Char → Bool
  jsToLower : Char → Char

/-- An environment whose tables agree with the real Unicode ones on every
ASCII input, used to instantiate witnesses (no ASCII character has the
emoji-presentation property). -/
def asciiEnv : JsEnv :=
  { isEmojiPresentation := fun _ => false
    isUnicodeLetter := Char.isAlpha
    isUnicodeNumber := Char.isDigit
    jsToLower := Char.toLower }

def STOP_WORDS : List Str :=
  (["the", "be", "to", "of", "and", "a", "in", "that", "have", "i", "it", "for",
    "not", "on", "with", "he", "as", "you", "do", "at", "this", "but", "his",
    "by", "from", "they", "we", "say", "her", "she", "or", "an", "will", "my",
    "one", "all", "would", "there", "their", "what", "so", "up", "out", "if",
    "about", "who", "get", "which", "go", "me", "when", "make", "can", "like",
    "time", "no", "just", "him", "know", "take", "people", "into", "year",
    "your", "good", "some", "could", "them", "see", "other", "than", "then",
    "now", "look", "only", "come", "its", "over", "think", "also", "back",
    "after", "use", "two", "how", "our", "work", "first", "well", "way",
    "even", "new", "want", "because", "any", "these", "give", "day", "most",
    "us", "is", "are", "was", "were", "has", "had", "been", "ok", "okay",
    "lol", "haha", "haha", "haha", "yeah", "yes", "hey", "hi", "hello", "omg",
    "did", "done", "too", "very", "much", "really", "got", "don", "dont",
    "didnt", "can", "cant", "cannot", "pm", "am", "omitted",
    "message", "deleted", "delete", "edited", "edit"]).map String.toList

def MEDIA_PHRASES_BASE : List Str :=
  (["image omitted", "video omitted", "audio omitted", "sticker omitted",
    "gif omitted", "media omitted", "contact card omitted",
    "document omitted", "null"]).map String.toList

def COLORS : List Str :=
  (["#8b5cf6", "#ec4899", "#06b6d4", "#f59e0b", "#10b981", "#f43f5e",
    "#3b82f6", "#a855f7", "#eab308", "#14b8a6", "#6366f1", "#ef4444"]).map
    String.toList

-- Word-boundary alternation matching, the model of the case-insensitive
-- greeting/farewell regexes (alternatives are lists of literals separated by
-- optional whitespace runs).

def isWordChar (c : Char) : Bool := isAsciiLetter c || isAsciiDigit c || c = '_'

/-- Match a sequence of literals separated by whitespace runs of any length
at the start of `s`, returning the unconsumed suffix. -/
def matchLits : List Str → Str → Option Str
  | [], s => some s
  | [w], s => if startsWithStr s w then some (s.drop w.length) else none
  | w :: ws, s =>
    if startsWithStr s w then
      matchLits ws ((s.drop w.length).dropWhile jsIsSpace)
    else none

/-- An alternative matches at this position with a trailing word boundary. -/
def altMatchesAt (alt : List Str) (s : Str) : Bool :=
  match matchLits alt s with
  | some [] => true
  | some (c :: _) => !isWordChar c
  | none => false

def wordRegexGo (alts : List (List Str)) : Str → Bool → Bool
  | [], _ => false
  | c :: rest, atB =>
    (atB && alts.any (fun alt => altMatchesAt alt (c :: rest))) ||
    wordRegexGo alts rest (!isWordChar c)

/-- Case-insensitive word-boundary alternation test over a string (the model
of testing a boundary-delimited alternation regex with the ignore-case
flag). -/
def testWordRegex (alts : List (List Str)) (s : Str) : Bool :=
  wordRegexGo alts (asciiLowerStr s) true

def GM_ALTS : List (List Str) :=
  [[ "gm".toList ], [ "good".toList, "morn".toList ], [ "morning".toList ],
   [ "mrng".toList ], [ "bonjour".toList ], [ "buenos".toList, "dias".toList ],
   [ "guten".toList, "morgen".toList ]]

def GN_ALTS : List (List Str) :=
  [[ "gn".toList ], [ "good".toList, "night".toList ], [ "night".toList ],
   [ "nite".toList ], [ "bonne".toList, "nuit".toList ],
   [ "buenas".toList, "noches".toList ], [ "gute".toList, "nacht".toList ]]

def BYE_ALTS : List (List Str) :=
  [[ "bye".toList ], [ "byee".toList ], [ "tata".toList ], [ "cya".toList ],
   [ "see".toList, "ya".toList ], [ "au".toList, "revoir".toList ],
   [ "adios".toList ], [ "tschuss".toList ]]

/-- The any-line-wrapped-in-angle-brackets test: first character is an
opening angle bracket, last is a closing one, at least one character between
them and none of them a line terminator (a dot never crosses a line
terminator). -/
def angleBracketTest (s : Str) : Bool :=
  match s with
  | '<' :: rest =>
    decide (rest.length ≥ 2) && rest.getLast? = some '>' &&
    rest.dropLast.all (fun c => !jsIsLineTerm c)
  | _ => false

def isSystemMsgCheck (lc : Str) : Bool :=
  jsIncludes lc ("this message was deleted".toList) ||
  jsIncludes lc ("you deleted this message".toList) ||
  lc = "this message was delete".toList ||
  lc = "this message".toList ||
  jsIncludes lc ("this message was edited".toList) ||
  jsIncludes lc ("was edited".toList)

def hasCJK (w : Str) : Bool := w.any (fun c => 0x4E00 ≤ c.toNat && c.toNat ≤ 0x9FFF)

/-- A token enters the frequency tables when its UTF-16 length exceeds two
(or it contains a CJK character) and it is not a stop word. -/
def wordQualifies (w : Str) : Bool :=
  (decide (utf16Len w > 2) || hasCJK w) && !(decide (w ∈ STOP_WORDS))

/-- Lower-case the content, strip every character that is not a letter, a
number, whitespace or an apostrophe, and split into whitespace-separated
tokens. -/
def lexTokens (env : JsEnv) (content : Str) : List Str :=
  let lower := content.map env.jsToLower
  let clean := lower.filter
    (fun c => env.isUnicodeLetter c || env.isUnicodeNumber c || jsIsSpace c || c = '\'')
  spaceFields clean

def msgIsMedia (env : JsEnv) (content : Str) : Bool :=
  let ct := jsTrim content
  angleBracketTest ct ||
  MEDIA_PHRASES_BASE.any (fun p => jsIncludes (ct.map env.jsToLower) p)

def msgIsSystem (env : JsEnv) (content : Str) : Bool :=
  isSystemMsgCheck ((jsTrim content).map env.jsToLower)

/-- Whitespace-token count of the trimmed content. -/
def msgWordCount (content : Str) : Nat := (spaceFields (jsTrim content)).length

def msgEmojis (env : JsEnv) (content : Str) : Str :=
  content.filter env.isEmojiPresentation

-- ---------------------------------------------------------------------------
-- Analytics engine: state and per-message step
-- ---------------------------------------------------------------------------

structure UserAgg where
  count : Nat
  words : Nat
  emojis : List (Str × Nat)
  wordFreq : List (Str × Nat)
  replyTimes : List Q
  morningCount : Nat
  nightCount : Nat
  byeCount : Nat
  textOnlyCount : Nat
  emojiMsgCount : Nat
  mediaMessageCount : Nat
  shortMessageCount : Nat
  longMessageCount : Nat
  oneSidedCount : Nat
deriving DecidableEq, Repr

def UserAgg.init : UserAgg :=
  { count := 0, words := 0, emojis := [], wordFreq := [], replyTimes := []
    morningCount := 0, nightCount := 0, byeCount := 0, textOnlyCount := 0
    emojiMsgCount := 0, mediaMessageCount := 0, shortMessageCount := 0
    longMessageCount := 0, oneSidedCount := 0 }

structure LongMsg where
  content : Str
  sender : Str
  date : Int
  wordCount : Nat
deriving DecidableEq, Repr

structure AState where
  userMap : List (Str × UserAgg)
  hourlyCounts : List Nat
  dayOfWeekCounts : List Nat
  msgsPerMinute : List (Str × Nat)
  msgsPerHourSpecific : List (Str × Nat)
  dailyTotalCounts : List (Str × Nat)
  dailyBreakdown : List (Str × List (Str × Nat))
  startersMap : List (Str × Nat)
  wordGlobalMap : List (Str × List (Str × Nat))
  phraseMap : List (Str × (Nat × List (Str × Nat)))
  lastMsgTime : Int
  lastSender : Str
  dayCount : Nat
  nightCount : Nat
  maxSilenceTime : Q
  currentBurst : Nat
  maxBurst : Nat
  burstCount : Nat
  longestMsg : LongMsg
  idx : Nat
deriving DecidableEq, Repr

def initAState : AState :=
  { userMap := [], hourlyCounts := List.replicate 24 0
    dayOfWeekCounts := List.replicate 7 0, msgsPerMinute := []
    msgsPerHourSpecific := [], dailyTotalCounts := [], dailyBreakdown := []
    startersMap := [], wordGlobalMap := [], phraseMap := [], lastMsgTime := 0
    lastSender := [], dayCount := 0, nightCount := 0, maxSilenceTime := Q.ofInt 0
    currentBurst := 0, maxBurst := 0, burstCount := 0
    longestMsg := { content := [], sender := [], date := 0, wordCount := 0 }
    idx := 0 }

/-- The count bump and the media / system / lexical classification phase of
the per-message aggregate mutation: word, length, emoji, word-frequency and
greeting counters. -/
def classifyAgg (env : JsEnv) (msg : Message) (u0 : UserAgg) : UserAgg :=
  let u := { u0 with count := u0.count + 1 }
  if msgIsMedia env msg.content then
    { u with mediaMessageCount := u.mediaMessageCount + 1 }
  else if msgIsSystem env msg.content then u
  else
    let wc := msgWordCount msg.content
    let u := { u with words := u.words + wc }
    let u := if wc ≤ 3 then { u with shortMessageCount := u.shortMessageCount + 1 } else u
    let u := if wc ≥ 12 then { u with longMessageCount := u.longMessageCount + 1 } else u
    let u :=
      if msgEmojis env msg.content ≠ [] then
        { u with emojiMsgCount := u.emojiMsgCount + 1,
                 emojis := (msgEmojis env msg.content).foldl
                   (fun m e => AL.bump m [e]) u.emojis }
      else { u with textOnlyCount := u.textOnlyCount + 1 }
    let u := (lexTokens env msg.content).foldl
      (fun u w => if wordQualifies w then { u with wordFreq := AL.bump u.wordFreq w } else u) u
    let u := if testWordRegex GM_ALTS msg.content then { u with morningCount := u.morningCount + 1 } else u
    let u := if testWordRegex GN_ALTS msg.content then { u with nightCount := u.nightCount + 1 } else u
    if testWordRegex BYE_ALTS msg.content then { u with byeCount := u.byeCount + 1 } else u

/-- The per-message mutations of the sender's aggregate, collected into one
update function (the source mutates one record reference through the
successive phases; the net effect on that record is this function): the
classification phase above, then the reply-latency push. -/
def updateAgg (env : JsEnv) (lastSender : Str) (lastMsgTime : Int)
    (msg : Message) (u0 : UserAgg) : UserAgg :=
  let u := classifyAgg env msg u0
  if lastSender ≠ [] ∧ lastSender ≠ msg.sender then
    let diffMinutes : Q := ⟨msg.date - lastMsgTime, 60000⟩
    if Q.Lt diffMinutes (Q.ofInt 360) then { u with replyTimes := u.replyTimes ++ [diffMinutes] } else u
  else u

/-- One iteration of the engine's message loop, written as a single record
update: every right-hand side reads the state before the message, which is
exactly the source's behaviour (the loop's later phases read only fields the
earlier phases of the same iteration do not write, and the previous-message
trackers are written last). -/
def stepMsg (env : JsEnv) (st : AState) (msg : Message) : AState :=
  let lex := !msgIsMedia env msg.content && !msgIsSystem env msg.content
  let wc := msgWordCount msg.content
  let words := lexTokens env msg.content
  let hour := (dateGetHours msg.date).toNat
  let dk := dateKeyOf msg.date
  let starts : Prop := st.idx = 0 ∨ 21600000 < msg.date - st.lastMsgTime
  let silenceHours : Q := ⟨msg.date - st.lastMsgTime, 3600000⟩
  { userMap := AL.upsert st.userMap msg.sender UserAgg.init
      (updateAgg env st.lastSender st.lastMsgTime msg)
    wordGlobalMap :=
      if lex then
        words.foldl (fun wg w =>
          if wordQualifies w then
            AL.upsert wg w [] (fun inner => AL.bump inner msg.sender)
          else wg) st.wordGlobalMap
      else st.wordGlobalMap
    phraseMap :=
      if lex then
        (words.zip words.tail).foldl (fun pm p =>
          if !(decide (p.1 ∈ STOP_WORDS)) || !(decide (p.2 ∈ STOP_WORDS)) then
            AL.upsert pm (p.1 ++ ' ' :: p.2) (0, [])
              (fun pe => (pe.1 + 1, AL.bump pe.2 msg.sender))
          else pm) st.phraseMap
      else st.phraseMap
    longestMsg :=
      if lex ∧ wc > st.longestMsg.wordCount then
        { content := msg.content, sender := msg.sender, date := msg.date, wordCount := wc }
      else st.longestMsg
    currentBurst :=
      if st.idx > 0 ∧ msg.date - st.lastMsgTime < 60000 then st.currentBurst + 1 else 1
    burstCount :=
      if st.idx > 0 ∧ ¬(msg.date - st.lastMsgTime < 60000) ∧ st.currentBurst > 5 then
        st.burstCount + 1
      else st.burstCount
    maxBurst :=
      if st.idx > 0 ∧ ¬(msg.date - st.lastMsgTime < 60000) ∧ st.currentBurst > 5 ∧
          st.currentBurst > st.maxBurst then
        st.currentBurst
      else st.maxBurst
    startersMap := if starts then AL.bump st.startersMap msg.sender else st.startersMap
    maxSilenceTime :=
      if starts ∧ st.idx > 0 ∧ Q.Lt st.maxSilenceTime silenceHours then silenceHours
      else st.maxSilenceTime
    hourlyCounts := st.hourlyCounts.set hour (st.hourlyCounts.getD hour 0 + 1)
    dayOfWeekCounts := st.dayOfWeekCounts.set (dateGetDay msg.date).toNat
      (st.dayOfWeekCounts.getD (dateGetDay msg.date).toNat 0 + 1)
    dayCount := if 6 ≤ hour ∧ hour < 18 then st.dayCount + 1 else st.dayCount
    nightCount := if 6 ≤ hour ∧ hour < 18 then st.nightCount else st.nightCount + 1
    dailyTotalCounts := AL.bump st.dailyTotalCounts dk
    msgsPerHourSpecific := AL.bump st.msgsPerHourSpecific (hourKeyOf msg.date)
    msgsPerMinute := AL.bump st.msgsPerMinute (minKeyOf msg.date)
    dailyBreakdown := AL.upsert st.dailyBreakdown dk []
      (fun inner => AL.bump inner msg.sender)
    lastMsgTime := msg.date
    lastSender := msg.sender
    idx := st.idx + 1 }

-- ---------------------------------------------------------------------------
-- Analytics engine: finalization
-- ---------------------------------------------------------------------------

/-- The one-sided-day pass: for every recorded day whose total exceeds ten
messages, bump the one-sided counter of every present sender holding a
strictly-greater-than-three-quarters share.  The share comparison
`count / totalDay > 0.75` is exact in doubles for totals below `2 ^ 52`, so
it is the rational comparison `4 * count > 3 * totalDay`. -/
def applyOneSided (userMap : List (Str × UserAgg))
    (breakdown : List (Str × List (Str × Nat))) : List (Str × UserAgg) :=
  breakdown.foldl (fun um e =>
    let totalDay := AL.sumVals e.2
    if totalDay > 10 then
      e.2.foldl (fun um p =>
        if 4 * p.2 > 3 * totalDay then
          if (AL.find? um p.1).isSome then
            AL.modify um p.1 (fun u => { u with oneSidedCount := u.oneSidedCount + 1 })
          else um
        else um) um
    else um) userMap

/-- The inner strict-maximum scan attributing a phrase to its top sayer. -/
def topUserOf (users : List (Str × Nat)) : Str :=
  (users.foldl (fun (acc : Str × Nat) p => if p.2 > acc.2 then p else acc) ([], 0)).1

/-- The top-phrase scan: strict running maximum above the significance
threshold of three. -/
def findTopPhrase (pm : List (Str × (Nat × List (Str × Nat)))) :
    Option (Str × Nat × Str) :=
  (pm.foldl (fun (acc : Option (Str × Nat × Str) × Nat) e =>
    if e.2.1 > acc.2 ∧ e.2.1 > 3 then (some (e.1, e.2.1, topUserOf e.2.2), e.2.1)
    else acc) (none, 0)).1

/-- Strict running maximum over an association list, returning key and
value (the most-active-date scan). -/
def maxEntry (l : List (Str × Nat)) : Str × Nat :=
  l.foldl (fun (acc : Str × Nat) p => if p.2 > acc.2 then p else acc) ([], 0)

/-- Strict running maximum of the values only. -/
def maxVal (l : List (Str × Nat)) : Nat :=
  l.foldl (fun m p => if p.2 > m then p.2 else m) 0

/-- Index of the strict running maximum of a bucket array. -/
def busiestHourOf (counts : List Nat) : Nat :=
  (counts.enum.foldl (fun (acc : Nat × Nat) p => if p.2 > acc.2 then p else acc)
    (0, 0)).1

/-- Stable insertion by descending key: a new element goes after every
element of key at least as large, reproducing a stable comparator sort. -/
def insDescBy (key : α → Nat) (x : α) : List α → List α
  | [] => [x]
  | y :: ys => if key y ≥ key x then y :: insDescBy key x ys else x :: y :: ys

def sortDescBy (key : α → Nat) (l : List α) : List α :=
  l.foldl (fun acc x => insDescBy key x acc) []

/-- Code-unit lexicographic comparison (the default string comparator; the
keys sorted in this development are ASCII, where code-unit and code-point
order coincide). -/
def strLexLe : Str → Str → Bool
  | [], _ => true
  | _ :: _, [] => false
  | a :: as, b :: bs =>
    if a.toNat < b.toNat then true
    else if b.toNat < a.toNat then false
    else strLexLe as bs

def insAscLex (x : Str) : List Str → List Str
  | [] => [x]
  | y :: ys => if strLexLe y x then y :: insAscLex x ys else x :: y :: ys

def sortStrsAsc (l : List Str) : List Str :=
  l.foldl (fun acc x => insAscLex x acc) []

def intToDecStr (n : Int) : Str :=
  if n < 0 then '-' :: decDigits (-n).toNat else decDigits n.toNat

def insIntByStr (x : Int) : List Int → List Int
  | [] => [x]
  | y :: ys =>
    if strLexLe (intToDecStr y) (intToDecStr x) then y :: insIntByStr x ys
    else x :: y :: ys

/-- Default (stringifying) sort of a numeric array: compare decimal
renderings lexicographically. -/
def sortIntsByStr (l : List Int) : List Int :=
  l.foldl (fun acc x => insIntByStr x acc) []

/-- First-occurrence deduplication (Set insertion order). -/
def dedupFirst (l : List Int) : List Int :=
  l.foldl (fun acc y => if y ∈ acc then acc else acc ++ [y]) []

/-- The streak loop over the sorted day keys: a day extends the current
streak when the ceiling of the day-gap to the previous key is at most one
and a half days, otherwise restarts it; an unparsable key (an invalid date,
whose comparison is false) restarts it. -/
def streakStep (acc : Nat × Nat × Str) (dateStr : Str) : Nat × Nat × Str :=
  let cur' :=
    if acc.2.2 ≠ [] then
      match parseIsoKeyMs dateStr, parseIsoKeyMs acc.2.2 with
      | some t1, some t2 =>
        let diff := jsCeil ⟨((t1 - t2).natAbs : Int), 86400000⟩
        if Q.Le (Q.ofInt diff) ⟨3, 2⟩ then acc.1 + 1 else 1
      | _, _ => 1
    else 1
  (cur', if cur' > acc.2.1 then cur' else acc.2.1, dateStr)

def streakFold (keys : List Str) : Nat :=
  (keys.foldl streakStep (0, 0, [])).2.1

/-- The first-strict-maximum scan of the conversation-start counts, seeded
with the busiest user's name (or a dash) and a best of minus one. -/
def topStarterOf (seed : Str) (sm : List (Str × Nat)) : Str :=
  (sm.foldl (fun (acc : Str × Int) p =>
    if (p.2 : Int) > acc.2 then (p.1, (p.2 : Int)) else acc) (seed, -1)).1

structure UserStat where
  name : Str
  messageCount : Nat
  wordCount : Nat
  avgLength : Int
  emojis : List (Str × Nat)
  color : Str
  topWords : List (Str × Nat)
  avgReplyTimeMinutes : Int
  morningCount : Nat
  nightCount : Nat
  byeCount : Nat
  textMessageCount : Nat
  emojiMessageCount : Nat
  mediaMessageCount : Nat
  shortMessageCount : Nat
  longMessageCount : Nat
  oneSidedConversationsCount : Nat
deriving DecidableEq, Repr

/-- Finalizing one user's public stats.  In the average-length division the
denominator is positive whenever the words numerator is (a counted word
implies a counted non-media message), so the zero-denominator convention of
rational division is never exercised on a reachable state. -/
def mkUserStat (i : Nat) (name : Str) (stats : UserAgg) : UserStat :=
  let avgReply : Q :=
    if stats.replyTimes.length > 0 then
      Q.div (stats.replyTimes.foldl Q.add (Q.ofInt 0)) (Q.ofInt stats.replyTimes.length)
    else Q.ofInt 0
  { name := name
    messageCount := stats.count
    wordCount := stats.words
    avgLength :=
      if stats.words > 0 then
        jsRound ⟨(stats.words : Int), ((stats.count - stats.mediaMessageCount : Nat) : Int)⟩
      else 0
    emojis := (sortDescBy Prod.snd stats.emojis).take 3
    color := (COLORS.getD (i % COLORS.length) [])
    topWords := (sortDescBy Prod.snd stats.wordFreq).take 3
    avgReplyTimeMinutes := jsRound avgReply
    morningCount := stats.morningCount
    nightCount := stats.nightCount
    byeCount := stats.byeCount
    textMessageCount := stats.textOnlyCount
    emojiMessageCount := stats.emojiMsgCount
    mediaMessageCount := stats.mediaMessageCount
    shortMessageCount := stats.shortMessageCount
    longMessageCount := stats.longMessageCount
    oneSidedConversationsCount := stats.oneSidedCount }

structure AnalysisResult where
  totalMessages : Nat
  messages : List Message
  dateRangeStart : Int
  dateRangeEnd : Int
  users : List UserStat
  activeUsersCount : Nat
  longestStreak : Nat
  mostActiveDate : Str × Nat
  busiestHour : Nat
  topStarter : Str
  timeline : List Unit
  hourlyHeatmap : List (Nat × Nat)
  yearOptions : List Int
  rapidFire : Nat × Nat × Nat
  dayNightSplit : Nat × Nat
  wordOccurrences : List (Str × List (Str × Nat))
  dayOfWeekStats : List Nat
  longestMessage : LongMsg
  burstStats : Nat × Nat
  silenceBreakerName : Str
  silenceBreakerMaxSilenceHours : Int
  silenceBreakCounts : List (Str × Nat)
  mostRepeatedPhrase : Option (Str × Nat × Str)
deriving DecidableEq, Repr

/-- The zero-valued result of the empty-filter branch.  The source builds its
date range and its longest-message placeholder with argumentless Date
constructors, which read the wall clock, modelled by the explicit `clock`
parameter. -/
def emptyResult (clock : Int) : AnalysisResult :=
  { totalMessages := 0, messages := [], dateRangeStart := clock
    dateRangeEnd := clock, users := [], activeUsersCount := 0
    longestStreak := 0, mostActiveDate := ([], 0), busiestHour := 0
    topStarter := [], timeline := [], hourlyHeatmap := [], yearOptions := []
    rapidFire := (0, 0, 0), dayNightSplit := (0, 0), wordOccurrences := []
    dayOfWeekStats := [0, 0, 0, 0, 0, 0, 0]
    longestMessage := { content := [], sender := [], date := clock, wordCount := 0 }
    burstStats := (0, 0), silenceBreakerName := []
    silenceBreakerMaxSilenceHours := 0, silenceBreakCounts := []
    mostRepeatedPhrase := none }

/-- The year filter: a zero filter value is falsy in the source and disables
filtering. -/
def yearFiltered (messages : List Message) (yearFilter : Option Int) : List Message :=
  match yearFilter with
  | some y => if y = 0 then messages else messages.filter (fun m => dateGetFullYear m.date = y)
  | none => messages

/-- The nonempty branch of the engine: run the message loop, the one-sided
pass and every maximum scan, then assemble the result. -/
def analyzeBody (env : JsEnv) (messages filteredMessages : List Message) :
    AnalysisResult :=
  let st := filteredMessages.foldl (stepMsg env) initAState
  let userMap := applyOneSided st.userMap st.dailyBreakdown
  let mad := maxEntry st.dailyTotalCounts
  let sortedUserNames :=
    sortDescBy (fun n => (((AL.find? userMap n).map UserAgg.count).getD 0)) (AL.keys userMap)
  let users := sortedUserNames.enum.map
    (fun p => mkUserStat p.1 p.2 ((AL.find? userMap p.2).getD UserAgg.init))
  let maxStreak := streakFold (sortStrsAsc (AL.keys st.dailyTotalCounts))
  let seed : Str := match users with
    | [] => "-".toList
    | u :: _ => jsOrStr u.name ("-".toList)
  let topSt := topStarterOf seed st.startersMap
  let years := dedupFirst (messages.map (fun m => dateGetFullYear m.date))
  { totalMessages := filteredMessages.length
    messages := filteredMessages
    dateRangeStart := ((filteredMessages.head?).map Message.date).getD 0
    dateRangeEnd := ((filteredMessages.getLast?).map Message.date).getD 0
    users := users
    activeUsersCount := users.length
    longestStreak := maxStreak
    mostActiveDate := mad
    busiestHour := busiestHourOf st.hourlyCounts
    topStarter := topSt
    timeline := []
    hourlyHeatmap := st.hourlyCounts.enum
    yearOptions := (sortIntsByStr years).reverse
    rapidFire := (maxVal st.msgsPerMinute, maxVal st.msgsPerHourSpecific, mad.2)
    dayNightSplit := (st.dayCount, st.nightCount)
    wordOccurrences := st.wordGlobalMap
    dayOfWeekStats := st.dayOfWeekCounts
    longestMessage := st.longestMsg
    burstStats := (st.burstCount, st.maxBurst)
    silenceBreakerName := topSt
    silenceBreakerMaxSilenceHours := jsRound st.maxSilenceTime
    silenceBreakCounts := st.startersMap
    mostRepeatedPhrase := findTopPhrase st.phraseMap }

/-- The analytics engine: filter by year, return the zero-valued result on an
empty filtered list (note the wall-clock `clock` dependency there), otherwise
run the body, which never reads the clock. -/
def analyzeMessages (env : JsEnv) (clock : Int) (messages : List Message)
    (yearFilter : Option Int) : AnalysisResult :=
  if yearFiltered messages yearFilter = [] then emptyResult clock
  else analyzeBody env messages (yearFiltered messages yearFilter)

-- ---------------------------------------------------------------------------
-- Generic facts about the engine entry point
-- ---------------------------------------------------------------------------

theorem analyzeMessages_nonempty (env : JsEnv) (clock : Int) (msgs : List Message)
    (f : Option Int) (h : yearFiltered msgs f ≠ []) :
    analyzeMessages env clock msgs f = analyzeBody env msgs (yearFiltered msgs f) := by
  unfold analyzeMessages
  rw [if_neg h]

/-- The result with its three wall-clock-derived fields blanked. -/
def scrubClock (r : AnalysisResult) : AnalysisResult :=
  { r with dateRangeStart := 0, dateRangeEnd := 0,
           longestMessage := { r.longestMessage with date := 0 } }

-- ---------------------------------------------------------------------------
-- Claim 1: burst boundary
-- ---------------------------------------------------------------------------

/-- Six messages from alternating senders, ten seconds apart. -/
def burstMsgs6 : List Message :=
  [⟨0, "A".toList, "hi".toList⟩, ⟨10000, "B".toList, "hi".toList⟩,
   ⟨20000, "A".toList, "hi".toList⟩, ⟨30000, "B".toList, "hi".toList⟩,
   ⟨40000, "A".toList, "hi".toList⟩, ⟨50000, "B".toList, "hi".toList⟩]

/-- The same six followed by a message seventy seconds later, which ends the
run with a gap of at least one minute. -/
def burstMsgs6T : List Message := burstMsgs6 ++ [⟨120000, "A".toList, "hi".toList⟩]

def burstMsgs5 : List Message := burstMsgs6.take 5

def burstMsgs5T : List Message := burstMsgs5 ++ [⟨110000, "A".toList, "hi".toList⟩]

/-- C1 counterexample: for six messages from alternating senders, ten seconds
apart, with no later message, the engine reports burst count 0 and maximum
burst 0 — not count 1 with maximum 6 as claimed, because a run is only
flushed by a later gap of at least one minute and no later message exists. -/
theorem claim1_counterexample :
    ¬((analyzeMessages asciiEnv 0 burstMsgs6 none).burstStats = (1, 6)) := by
  decide

/-- C1 amended: six messages from alternating senders, ten seconds apart,
produce burst count 1 with maximum burst 6 exactly when a later message at
least one minute after ends the run; with no later message the trailing run
is never flushed and the counts stay 0; five such messages increment nothing
whether or not a later message follows. -/
theorem claim1_amended :
    (analyzeMessages asciiEnv 0 burstMsgs6T none).burstStats = (1, 6) ∧
    (analyzeMessages asciiEnv 0 burstMsgs6 none).burstStats = (0, 0) ∧
    (analyzeMessages asciiEnv 0 burstMsgs5 none).burstStats = (0, 0) ∧
    (analyzeMessages asciiEnv 0 burstMsgs5T none).burstStats = (0, 0) := by
  refine ⟨by decide, by decide, by decide, by decide⟩

-- ---------------------------------------------------------------------------
-- Claim 2: invalid calendar dates in matching lines
-- ---------------------------------------------------------------------------

/-- A transcript whose second line has day 32: its prefix matches the
timestamp grammar but the components are not a valid calendar date. -/
def c2Text : String := "12/05/23, 9:00 - Alice: hello\n32/05/23, 9:00 - Bob: hi"

/-- C2 counterexample: the day-32 line is not treated like a non-matching
line.  It emits a second Message (sender Bob) instead of being appended to
the current message, whose content stays exactly hello; the same happens
under a month-first locale. -/
theorem claim2_counterexample :
    (parseChatText ("fr".toList) c2Text.toList).messages =
      [⟨1683882000000, "Alice".toList, "hello".toList⟩,
       ⟨1685610000000, "Bob".toList, "hi".toList⟩] ∧
    (parseChatText ("en-US".toList) c2Text.toList).messages.length = 2 := by
  exact ⟨by decide, by decide⟩

/-- C2 amended: a matching line with out-of-range date components never
raises an error, but is not folded as a continuation either: the Date
arithmetic normalizes the overflow (day 32 of May 2023 is 1 June 2023) and
the line emits a new Message with the normalized timestamp. -/
theorem claim2_amended :
    parseDate ("32/05/23".toList) ("9:00".toList) DateFmt.DMY = some 1685610000000 ∧
    dateKeyOf 1685610000000 = ("2023-06-01".toList) ∧
    (parseChatText ("fr".toList) c2Text.toList).messages.map Message.sender =
      ["Alice".toList, "Bob".toList] := by
  exact ⟨by decide, by decide, by decide⟩

-- ---------------------------------------------------------------------------
-- Claim 3: determinism of the engine
-- ---------------------------------------------------------------------------

/-- C3 counterexample: on an empty message list the engine reads the wall
clock for its date range and longest-message placeholder, so two calls at
different instants return different AnalysisResult values. -/
theorem claim3_counterexample :
    analyzeMessages asciiEnv 0 [] none ≠ analyzeMessages asciiEnv 86400000 [] none := by
  decide

/-- C3 amended: the engine is deterministic in everything except the wall
clock: two calls with the same list, filter and host environment agree
exactly when the filtered list is nonempty, and always agree on every field
other than the date range and the longest-message placeholder date (the
three fields built from argumentless Date constructors in the empty
branch). -/
theorem claim3_amended (env : JsEnv) (c1 c2 : Int) (msgs : List Message) (f : Option Int) :
    (yearFiltered msgs f ≠ [] →
      analyzeMessages env c1 msgs f = analyzeMessages env c2 msgs f) ∧
    scrubClock (analyzeMessages env c1 msgs f) = scrubClock (analyzeMessages env c2 msgs f) := by
  unfold analyzeMessages
  by_cases h : yearFiltered msgs f = []
  · rw [if_pos h, if_pos h]
    exact ⟨fun hc => absurd h hc, rfl⟩
  · rw [if_neg h, if_neg h]
    exact ⟨fun _ => rfl, rfl⟩

theorem claim3_witness :
    yearFiltered [(⟨0, "A".toList, "x".toList⟩ : Message)] none ≠ [] ∧
    analyzeMessages asciiEnv 0 [(⟨0, "A".toList, "x".toList⟩ : Message)] none =
      analyzeMessages asciiEnv 123456789 [(⟨0, "A".toList, "x".toList⟩ : Message)] none :=
  ⟨by decide, (claim3_amended asciiEnv 0 123456789 _ none).1 (by decide)⟩

-- ---------------------------------------------------------------------------
-- Claim 4: the minimal two-line chat scenario
-- ---------------------------------------------------------------------------

/-- The two-line scenario transcript. -/
def chat2Line : String := "12/05/23, 9:00 - Alice: hello\n12/05/23, 9:01 - Bob: hi there"

/-- Its parse under a day-first locale (12 May 2023, 9:00 and 9:01 UTC). -/
def c4MsgsDMY : List Message :=
  [⟨1683882000000, "Alice".toList, "hello".toList⟩,
   ⟨1683882060000, "Bob".toList, "hi there".toList⟩]

/-- Its parse under a month-first locale (5 December 2023). -/
def c4MsgsMDY : List Message :=
  [⟨1701766800000, "Alice".toList, "hello".toList⟩,
   ⟨1701766860000, "Bob".toList, "hi there".toList⟩]

/-- Both date tokens are ambiguous (both components at most 12), so the
parser resolves the order from the locale; either way the transcript parses
to the same two senders one minute apart at hour nine. -/
theorem c4_parse (locale : Str) :
    (parseChatText locale chat2Line.toList).messages = c4MsgsDMY ∨
    (parseChatText locale chat2Line.toList).messages = c4MsgsMDY := by
  have hdef : parseChatText locale chat2Line.toList =
      ⟨((splitLines (stripMarks chat2Line.toList)).foldl
          (parseLine (if startsWithStr (jsOrStr locale ("en-GB".toList)) ("en-US".toList)
            then DateFmt.MDY else DateFmt.DMY)) ([], false)).1.reverse, true, none⟩ := rfl
  cases h : startsWithStr (jsOrStr locale ("en-GB".toList)) ("en-US".toList)
  · left
    rw [hdef, h]
    decide
  · right
    rw [hdef, h]
    decide

/-- C4: whatever the navigator locale and whatever the wall clock, the
two-line transcript parses to exactly 2 messages, and analyzing them yields
Alice and Bob with one message each, busiest hour 9, longest streak 1, and a
maximum silence of 0 hours (no gap above six hours).  The host environment is
instantiated at the ASCII tables, which agree with the real Unicode ones on
this all-ASCII transcript. -/
theorem claim4_thm (locale : Str) (clock : Int) :
    (parseChatText locale chat2Line.toList).messages.length = 2 ∧
    ((analyzeMessages asciiEnv clock (parseChatText locale chat2Line.toList).messages
        none).users.map (fun u => (u.name, u.messageCount))) =
      [("Alice".toList, 1), ("Bob".toList, 1)] ∧
    (analyzeMessages asciiEnv clock (parseChatText locale chat2Line.toList).messages
        none).busiestHour = 9 ∧
    (analyzeMessages asciiEnv clock (parseChatText locale chat2Line.toList).messages
        none).longestStreak = 1 ∧
    (analyzeMessages asciiEnv clock (parseChatText locale chat2Line.toList).messages
        none).silenceBreakerMaxSilenceHours = 0 := by
  rcases c4_parse locale with h | h <;> rw [h] <;>
    rw [analyzeMessages_nonempty asciiEnv clock _ none (by decide)] <;>
    exact ⟨by decide, by decide, by decide, by decide, by decide⟩

-- ---------------------------------------------------------------------------
-- Claim 5: the day-first resolution of the disambiguator
-- ---------------------------------------------------------------------------


theorem Q.le_rfl (a : Q) : Q.Le a a := le_of_eq rfl

theorem Q.lt_imp_le {a b : Q} (h : Q.Lt a b) : Q.Le a b := by
  unfold Q.Lt at h
  unfold Q.Le
  omega

theorem Q.nlt_imp_le {a b : Q} (h : ¬ Q.Lt a b) : Q.Le b a := by
  unfold Q.Lt at h
  unfold Q.Le
  omega

theorem Q.le_imp_nlt {a b : Q} (h : Q.Le a b) : ¬ Q.Lt b a := by
  unfold Q.Lt
  unfold Q.Le at h
  omega

theorem Q.le_trans3 {a b c : Q} (ha : 0 < a.den) (hb : 0 < b.den) (hc : 0 < c.den)
    (h1 : Q.Le a b) (h2 : Q.Le b c) : Q.Le a c := by
  unfold Q.Le at h1 h2 ⊢
  have h1' := mul_le_mul_of_nonneg_right h1 hc.le
  have h2' := mul_le_mul_of_nonneg_right h2 ha.le
  have key : a.num * c.den * b.den ≤ c.num * a.den * b.den := by nlinarith [h1', h2']
  exact le_of_mul_le_mul_right key hb

theorem Q.lt_of_lt_of_le3 {a b c : Q} (ha : 0 < a.den) (hb : 0 < b.den) (hc : 0 < c.den)
    (h1 : Q.Lt a b) (h2 : Q.Le b c) : Q.Lt a c := by
  unfold Q.Lt at h1 ⊢
  unfold Q.Le at h2
  have h1' := mul_lt_mul_of_pos_right h1 hc
  have h2' := mul_le_mul_of_nonneg_right h2 ha.le
  have key : a.num * c.den * b.den < c.num * a.den * b.den := by nlinarith [h1', h2']
  exact lt_of_mul_lt_mul_right key hb.le

theorem jsNumber_den_pos {s : Str} {q : Q} (h : jsNumber s = some q) : 0 < q.den := by
  simp only [jsNumber] at h
  split at h
  · cases h; decide
  · split at h
    · split at h
      · cases h
      · cases h
        split
        · simp [Q.neg, Q.ofInt]
        · simp [Q.ofInt]
    · split at h
      · cases h
        split
        · simp only [Q.neg]
          positivity
        · positivity
      · cases h
    · cases h

theorem dateComp_den_pos {i : Nat} {d : Str} {q : Q} (h : dateComp i d = some q) :
    0 < q.den := by
  unfold dateComp at h
  simp only [List.getD, List.get?_eq_getElem?, List.getElem?_map] at h
  rcases hg : (splitOnPred (fun c => c = '-' || c = '.' || c = '/') d)[i]? with _ | g
  · rw [hg] at h; cases h
  · rw [hg] at h
    simp only [Option.map_some', Option.getD_some] at h
    exact jsNumber_den_pos h

/-- Invariant of the disambiguator's scan when no sampled first component
exceeds 1000: the year-first flag stays off, the running first-component
maximum keeps a positive denominator, never decreases, and ends at least as
large as every sampled first component. -/
theorem dfScan_spec (ls : List Str) (mf ms : Q) (hmf : 0 < mf.den)
    (hbound : ∀ l ∈ ls, ∀ d t r, tsMatch l = some (d, t, r) →
      ∀ q, dateComp 0 d = some q → Q.Le q (Q.ofInt 1000)) :
    (dfScan ls mf ms).1 = false ∧
    0 < (dfScan ls mf ms).2.1.den ∧
    Q.Le mf (dfScan ls mf ms).2.1 ∧
    (∀ l ∈ ls, ∀ d t r, tsMatch l = some (d, t, r) →
      ∀ q, dateComp 0 d = some q → Q.Le q (dfScan ls mf ms).2.1) := by
  induction ls generalizing mf ms with
  | nil =>
    refine ⟨rfl, hmf, Q.le_rfl mf, ?_⟩
    intro l hl
    cases hl
  | cons l rest ih =>
    rcases hm : tsMatch l with _ | ⟨d, t, r⟩
    · have step : dfScan (l :: rest) mf ms = dfScan rest mf ms := by
        simp only [dfScan, hm]
      rw [step]
      obtain ⟨h1, h2, h3, h4⟩ := ih mf ms hmf (fun l' hl' => hbound l' (List.mem_cons_of_mem _ hl'))
      refine ⟨h1, h2, h3, ?_⟩
      intro l' hl' d' t' r' hm' q hq
      rcases List.mem_cons.mp hl' with rfl | hl'
      · rw [hm] at hm'; cases hm'
      · exact h4 l' hl' d' t' r' hm' q hq
    · rcases hp0 : dateComp 0 d with _ | q0
      · have step : dfScan (l :: rest) mf ms =
            dfScan rest mf (match dateComp 1 d with
              | some q => if Q.Lt ms q then q else ms
              | none => ms) := by
          simp only [dfScan, hm, hp0, optGtB, Bool.false_eq_true, if_false]
        rw [step]
        obtain ⟨h1, h2, h3, h4⟩ := ih mf _ hmf (fun l' hl' => hbound l' (List.mem_cons_of_mem _ hl'))
        refine ⟨h1, h2, h3, ?_⟩
        intro l' hl' d' t' r' hm' q hq
        rcases List.mem_cons.mp hl' with rfl | hl'
        · rw [hm] at hm'
          cases hm'
          rw [hp0] at hq
          cases hq
        · exact h4 l' hl' d' t' r' hm' q hq
      · have hqle : Q.Le q0 (Q.ofInt 1000) :=
          hbound l (List.mem_cons_self l rest) d t r hm q0 hp0
        have hq0den : 0 < q0.den := dateComp_den_pos hp0
        have hnb : optGtB (some q0) (Q.ofInt 1000) = false := by
          unfold optGtB
          simp only [decide_eq_false_iff_not]
          exact Q.le_imp_nlt hqle
        have step : dfScan (l :: rest) mf ms =
            dfScan rest (if Q.Lt mf q0 then q0 else mf)
              (match dateComp 1 d with
                | some q => if Q.Lt ms q then q else ms
                | none => ms) := by
          simp only [dfScan, hm, hp0, hnb, Bool.false_eq_true, if_false]
        rw [step]
        set mf2 := if Q.Lt mf q0 then q0 else mf with hmf2def
        have hmf2den : 0 < mf2.den := by
          rw [hmf2def]
          split
          · exact hq0den
          · exact hmf
        have hle1 : Q.Le mf mf2 := by
          rw [hmf2def]
          split
          · exact Q.lt_imp_le (by assumption)
          · exact Q.le_rfl mf
        have hle2 : Q.Le q0 mf2 := by
          rw [hmf2def]
          split
          · exact Q.le_rfl q0
          · exact Q.nlt_imp_le (by assumption)
        obtain ⟨h1, h2, h3, h4⟩ := ih mf2 _ hmf2den
          (fun l' hl' => hbound l' (List.mem_cons_of_mem _ hl'))
        refine ⟨h1, h2, Q.le_trans3 hmf hmf2den h2 hle1 h3, ?_⟩
        intro l' hl' d' t' r' hm' q hq
        rcases List.mem_cons.mp hl' with rfl | hl'
        · rw [hm] at hm'
          cases hm'
          rw [hp0] at hq
          cases hq
          exact Q.le_trans3 hq0den hmf2den h2 hle2 h3
        · exact h4 l' hl' d' t' r' hm' q hq

/-- C5: if some sampled line's date token has first component above 12, and
no sampled token's first component exceeds 1000 (so the year-first break
never fires), the disambiguator resolves day-first, whatever the locale. -/
theorem claim5_thm (locale : Str) (lines : List Str)
    (hex : ∃ l ∈ lines.take 50, ∃ d t r, tsMatch l = some (d, t, r) ∧
      ∃ q, dateComp 0 d = some q ∧ Q.Lt (Q.ofInt 12) q)
    (hbound : ∀ l ∈ lines.take 50, ∀ d t r, tsMatch l = some (d, t, r) →
      ∀ q, dateComp 0 d = some q → Q.Le q (Q.ofInt 1000)) :
    detectDateFormat locale lines = DateFmt.DMY := by
  obtain ⟨l, hl, d, t, r, hm, q, hq, h12⟩ := hex
  obtain ⟨h1, h2, h3, h4⟩ :=
    dfScan_spec (lines.take 50) (Q.ofInt 0) (Q.ofInt 0) (by decide) hbound
  have hfin : Q.Lt (Q.ofInt 12) (dfScan (lines.take 50) (Q.ofInt 0) (Q.ofInt 0)).2.1 :=
    Q.lt_of_lt_of_le3 (by decide) (dateComp_den_pos hq) h2 h12 (h4 l hl d t r hm q hq)
  simp only [detectDateFormat]
  rw [h1]
  simp only [Bool.false_eq_true, if_false]
  rw [if_pos hfin]

theorem claim5_witness :
    detectDateFormat ("en-US".toList) ["13/05/23, 9:00 - A: x".toList] = DateFmt.DMY := by
  apply claim5_thm
  · refine ⟨"13/05/23, 9:00 - A: x".toList, by decide, "13/05/23".toList, "9:00".toList,
      "A: x".toList, by decide, ⟨13, 1⟩, by decide, by decide⟩
  · intro l hl d t r hm q hq
    have hx : l = "13/05/23, 9:00 - A: x".toList := by
      rw [show List.take 50 ["13/05/23, 9:00 - A: x".toList] =
        ["13/05/23, 9:00 - A: x".toList] from rfl] at hl
      simpa using hl
    subst hx
    rw [show tsMatch "13/05/23, 9:00 - A: x".toList =
        some ("13/05/23".toList, "9:00".toList, "A: x".toList) from by decide] at hm
    injection hm with h
    have hd : "13/05/23".toList = d := congrArg Prod.fst h
    rw [← hd] at hq
    rw [show dateComp 0 ("13/05/23".toList) = some ⟨13, 1⟩ from by decide] at hq
    injection hq with h2
    rw [← h2]
    decide

-- ---------------------------------------------------------------------------
-- Association-list lemmas
-- ---------------------------------------------------------------------------

namespace AL

theorem find?_isSome_iff (l : List (Str × α)) (k : Str) :
    (find? l k).isSome ↔ k ∈ keys l := by
  induction l with
  | nil => exact ⟨fun h => Bool.noConfusion h, fun h => absurd h (List.not_mem_nil k)⟩
  | cons p rest ih =>
    by_cases h : p.1 = k
    · refine ⟨fun _ => ?_, fun _ => ?_⟩
      · exact List.mem_cons.mpr (Or.inl h.symm)
      · show (find? (p :: rest) k).isSome = true
        simp only [find?]
        rw [if_pos h]
        rfl
    · simp only [find?, if_neg h, keys, List.map_cons, List.mem_cons, ih]
      constructor
      · exact Or.inr
      · rintro (h' | hk)
        · exact absurd h'.symm h
        · exact hk

theorem modify_eq_of_not_mem (l : List (Str × α)) (k : Str) (f : α → α)
    (h : k ∉ keys l) : modify l k f = l := by
  induction l with
  | nil => rfl
  | cons p rest ih =>
    simp only [keys, List.map_cons, List.mem_cons] at h
    simp only [modify, List.map_cons]
    rw [if_neg (fun he => h (Or.inl he.symm))]
    have := ih (fun hk => h (Or.inr hk))
    simp only [modify] at this
    rw [this]

theorem keys_modify (l : List (Str × α)) (k : Str) (f : α → α) :
    keys (modify l k f) = keys l := by
  unfold keys modify
  rw [List.map_map]
  apply List.map_congr_left
  intro p _
  by_cases h : p.1 = k
  · simp [Function.comp, h]
  · simp [Function.comp, h]

theorem keys_upsert (l : List (Str × α)) (k : Str) (d : α) (f : α → α) :
    keys (upsert l k d f) = if k ∈ keys l then keys l else keys l ++ [k] := by
  unfold upsert
  by_cases h : k ∈ keys l
  · rw [if_pos ((find?_isSome_iff l k).mpr h), keys_modify, if_pos h]
  · rw [if_neg (fun hs => h ((find?_isSome_iff l k).mp hs)), if_neg h]
    simp [keys, List.map_append]

theorem keys_bump (l : List (Str × Nat)) (k : Str) :
    keys (bump l k) = if k ∈ keys l then keys l else keys l ++ [k] :=
  keys_upsert l k 0 (· + 1)

theorem find?_modify_self (l : List (Str × α)) (k : Str) (f : α → α) :
    find? (modify l k f) k = (find? l k).map f := by
  induction l with
  | nil => rfl
  | cons p rest ih =>
    by_cases h : p.1 = k
    · simp [modify, find?, h]
    · simp only [modify, List.map_cons, find?, if_neg h]
      exact ih

theorem find?_modify_ne (l : List (Str × α)) (k k' : Str) (f : α → α) (h : k' ≠ k) :
    find? (modify l k f) k' = find? l k' := by
  induction l with
  | nil => rfl
  | cons p rest ih =>
    by_cases hp : p.1 = k
    · have hp' : ¬ (p.1 = k') := fun he => h (hp.symm.trans he).symm
      simp only [modify, List.map_cons, if_pos hp, find?]
      rw [if_neg hp', if_neg hp']
      exact ih
    · simp only [modify, List.map_cons, if_neg hp, find?]
      by_cases hk : p.1 = k'
      · rw [if_pos hk, if_pos hk]
      · rw [if_neg hk, if_neg hk]
        exact ih

theorem find?_append_left (l l' : List (Str × α)) (k : Str) (h : find? l k = none) :
    find? (l ++ l') k = find? l' k := by
  induction l with
  | nil => rfl
  | cons p rest ih =>
    simp only [find?] at h
    rcases Decidable.em (p.1 = k) with hp | hp
    · rw [if_pos hp] at h; cases h
    · rw [if_neg hp] at h
      simp only [List.cons_append, find?, if_neg hp]
      exact ih h

theorem find?_append_singleton_ne (l : List (Str × α)) (k k' : Str) (v : α)
    (h : k' ≠ k) : find? (l ++ [(k, v)]) k' = find? l k' := by
  induction l with
  | nil => simp [find?, Ne.symm h]
  | cons p rest ih =>
    simp only [List.cons_append, find?]
    by_cases hk : p.1 = k'
    · rw [if_pos hk, if_pos hk]
    · rw [if_neg hk, if_neg hk]
      exact ih

theorem find?_upsert_self (l : List (Str × α)) (k : Str) (d : α) (f : α → α) :
    find? (upsert l k d f) k = some (f ((find? l k).getD d)) := by
  unfold upsert
  rcases hf : find? l k with _ | v
  · rw [if_neg (by simp [hf]), find?_append_left l _ k hf]
    simp [find?]
  · rw [if_pos (by simp [hf]), find?_modify_self, hf]
    rfl

theorem find?_upsert_ne (l : List (Str × α)) (k k' : Str) (d : α) (f : α → α)
    (h : k' ≠ k) : find? (upsert l k d f) k' = find? l k' := by
  unfold upsert
  split
  · exact find?_modify_ne l k k' f h
  · exact find?_append_singleton_ne l k k' (f d) h

theorem find?_bump_self (l : List (Str × Nat)) (k : Str) :
    find? (bump l k) k = some ((find? l k).getD 0 + 1) :=
  find?_upsert_self l k 0 (· + 1)

theorem find?_bump_ne (l : List (Str × Nat)) (k k' : Str) (h : k' ≠ k) :
    find? (bump l k) k' = find? l k' :=
  find?_upsert_ne l k k' 0 (· + 1) h

theorem nodup_keys_upsert (l : List (Str × α)) (k : Str) (d : α) (f : α → α)
    (h : (keys l).Nodup) : (keys (upsert l k d f)).Nodup := by
  rw [keys_upsert]
  split
  · exact h
  · rw [List.nodup_append]
    exact ⟨h, List.nodup_singleton k, by simpa using (by assumption : ¬ k ∈ keys l)⟩

theorem nodup_keys_bump (l : List (Str × Nat)) (k : Str) (h : (keys l).Nodup) :
    (keys (bump l k)).Nodup :=
  nodup_keys_upsert l k 0 (· + 1) h

theorem sumVals_modify_add (l : List (Str × Nat)) (k : Str) (n : Nat)
    (hk : (keys l).Nodup) (hmem : k ∈ keys l) :
    sumVals (modify l k (· + n)) = sumVals l + n := by
  induction l with
  | nil => cases hmem
  | cons p rest ih =>
    simp only [keys, List.map_cons, List.nodup_cons] at hk
    by_cases h : p.1 = k
    · simp only [modify, List.map_cons, if_pos h]
      rw [show (List.map (fun p => if p.1 = k then (p.1, p.2 + n) else p) rest) =
          modify rest k (· + n) from rfl,
        modify_eq_of_not_mem rest k _ (h ▸ hk.1)]
      simp only [sumVals, List.map_cons, List.sum_cons]
      omega
    · have hmem' : k ∈ keys rest := by
        rcases List.mem_cons.mp hmem with h' | h'
        · exact absurd h'.symm h
        · exact h'
      simp only [modify, List.map_cons, if_neg h]
      rw [show (List.map (fun p => if p.1 = k then (p.1, p.2 + n) else p) rest) =
          modify rest k (· + n) from rfl]
      simp only [sumVals, List.map_cons, List.sum_cons]
      have := ih hk.2 hmem'
      simp only [sumVals] at this
      omega

theorem sumVals_bump (l : List (Str × Nat)) (k : Str) (hk : (keys l).Nodup) :
    sumVals (bump l k) = sumVals l + 1 := by
  unfold bump upsert
  split
  · exact sumVals_modify_add l k 1 hk ((find?_isSome_iff l k).mp (by assumption))
  · simp [sumVals, List.map_append]

end AL

-- ---------------------------------------------------------------------------
-- Claim 6: streak bounds
-- ---------------------------------------------------------------------------

/-- The day-key table of the engine state is the bump-fold of the message
day keys: the per-message step updates it independently of every other state
field. -/
theorem foldState_dailyTotalCounts (env : JsEnv) (l : List Message) (st0 : AState) :
    (l.foldl (stepMsg env) st0).dailyTotalCounts =
      (l.map (fun m => dateKeyOf m.date)).foldl AL.bump st0.dailyTotalCounts := by
  induction l generalizing st0 with
  | nil => rfl
  | cons m rest ih =>
    rw [List.foldl_cons, List.map_cons, List.foldl_cons, ih]
    rfl

/-- Keys of a bump-fold: nodup is preserved and the key set is the starting
key set united with the folded keys. -/
theorem bumpFold_keys (ks : List Str) (init : List (Str × Nat))
    (h : (AL.keys init).Nodup) :
    (AL.keys (ks.foldl AL.bump init)).Nodup ∧
    (∀ x, x ∈ AL.keys (ks.foldl AL.bump init) ↔ x ∈ AL.keys init ∨ x ∈ ks) := by
  induction ks generalizing init with
  | nil => exact ⟨h, fun x => by simp⟩
  | cons k rest ih =>
    rw [List.foldl_cons]
    obtain ⟨ih1, ih2⟩ := ih (AL.bump init k) (AL.nodup_keys_bump init k h)
    refine ⟨ih1, fun x => ?_⟩
    rw [ih2 x, AL.keys_bump]
    split
    · rename_i hmem
      constructor
      · rintro (hx | hx)
        · exact Or.inl hx
        · exact Or.inr (List.mem_cons_of_mem _ hx)
      · rintro (hx | hx)
        · exact Or.inl hx
        · rcases List.mem_cons.mp hx with rfl | hx'
          · exact Or.inl hmem
          · exact Or.inr hx'
    · constructor
      · rintro (hx | hx)
        · rcases List.mem_append.mp hx with hx' | hx'
          · exact Or.inl hx'
          · exact Or.inr (List.mem_cons.mpr (Or.inl (List.mem_singleton.mp hx')))
        · exact Or.inr (List.mem_cons_of_mem _ hx)
      · rintro (hx | hx)
        · exact Or.inl (List.mem_append.mpr (Or.inl hx))
        · rcases List.mem_cons.mp hx with rfl | hx'
          · exact Or.inl (List.mem_append.mpr (Or.inr (List.mem_singleton.mpr rfl)))
          · exact Or.inr hx'

theorem streakStep_cur' (acc : Nat × Nat × Str) (k : Str) :
    (streakStep acc k).1 = 1 ∨ (streakStep acc k).1 = acc.1 + 1 := by
  by_cases hp : acc.2.2 = []
  · left
    simp [streakStep, hp]
  · rcases h1 : parseIsoKeyMs k with _ | t1 <;> rcases h2 : parseIsoKeyMs acc.2.2 with _ | t2
    · left; simp [streakStep, hp, h1, h2]
    · left; simp [streakStep, hp, h1, h2]
    · left; simp [streakStep, hp, h1, h2]
    · by_cases hq : Q.Le (Q.ofInt (jsCeil ⟨|t1 - t2|, 86400000⟩)) ⟨3, 2⟩
      · right; simp [streakStep, hp, h1, h2, hq]
      · left; simp [streakStep, hp, h1, h2, hq]

theorem streakStep_cur (acc : Nat × Nat × Str) (k : Str) :
    (streakStep acc k).1 ≤ acc.1 + 1 ∧ 1 ≤ (streakStep acc k).1 := by
  rcases streakStep_cur' acc k with h | h <;> omega

theorem streakStep_mx (acc : Nat × Nat × Str) (k : Str) :
    (streakStep acc k).2.1 = max acc.2.1 (streakStep acc k).1 := by
  have h : (streakStep acc k).2.1 =
      if (streakStep acc k).1 > acc.2.1 then (streakStep acc k).1 else acc.2.1 := rfl
  rw [h]
  rcases Nat.lt_or_ge acc.2.1 (streakStep acc k).1 with hlt | hge
  · rw [if_pos hlt]
    omega
  · rw [if_neg (by omega)]
    omega

theorem streakFold_aux (ks : List Str) (acc : Nat × Nat × Str) :
    (ks.foldl streakStep acc).2.1 ≤ max acc.2.1 (acc.1 + ks.length) ∧
    acc.2.1 ≤ (ks.foldl streakStep acc).2.1 := by
  induction ks generalizing acc with
  | nil => simp
  | cons k rest ih =>
    rw [List.foldl_cons]
    obtain ⟨ih1, ih2⟩ := ih (streakStep acc k)
    obtain ⟨hc1, hc2⟩ := streakStep_cur acc k
    have hmx := streakStep_mx acc k
    rw [List.length_cons]
    constructor
    · refine le_trans ih1 ?_
      omega
    · refine le_trans ?_ ih2
      omega

theorem streakFold_le_length (ks : List Str) : streakFold ks ≤ ks.length := by
  have h := (streakFold_aux ks (0, 0, [])).1
  unfold streakFold
  simpa using h

theorem streakFold_pos (ks : List Str) (h : ks ≠ []) : 1 ≤ streakFold ks := by
  rcases ks with _ | ⟨k, rest⟩
  · exact absurd rfl h
  · unfold streakFold
    rw [List.foldl_cons]
    have h2 := (streakFold_aux rest (streakStep (0, 0, []) k)).2
    have hc := (streakStep_cur (0, 0, []) k).2
    have hmx := streakStep_mx (0, 0, []) k
    omega

theorem insAscLex_length (x : Str) (l : List Str) :
    (insAscLex x l).length = l.length + 1 := by
  induction l with
  | nil => rfl
  | cons y ys ih =>
    unfold insAscLex
    split
    · simpa using ih
    · simp

theorem sortAux_length (l : List Str) : ∀ acc : List Str,
    (l.foldl (fun a x => insAscLex x a) acc).length = acc.length + l.length := by
  induction l with
  | nil => intro acc; simp
  | cons x xs ih =>
    intro acc
    rw [List.foldl_cons, ih (insAscLex x acc), insAscLex_length, List.length_cons]
    omega

theorem sortStrsAsc_length (l : List Str) : (sortStrsAsc l).length = l.length := by
  have h := sortAux_length l []
  simp only [List.length_nil, Nat.zero_add] at h
  exact h

/-- C6: for a nonempty filtered list the longest streak is at least 1 and at
most the number of distinct calendar-day keys that contain a message. -/
theorem claim6_thm (env : JsEnv) (clock : Int) (msgs : List Message) (f : Option Int)
    (h : yearFiltered msgs f ≠ []) :
    1 ≤ (analyzeMessages env clock msgs f).longestStreak ∧
    (analyzeMessages env clock msgs f).longestStreak ≤
      ((yearFiltered msgs f).map (fun m => dateKeyOf m.date)).dedup.length := by
  rw [analyzeMessages_nonempty env clock msgs f h]
  have hls : (analyzeBody env msgs (yearFiltered msgs f)).longestStreak =
      streakFold (sortStrsAsc (AL.keys
        (((yearFiltered msgs f).foldl (stepMsg env) initAState).dailyTotalCounts))) := rfl
  rw [hls, foldState_dailyTotalCounts]
  rw [show initAState.dailyTotalCounts = ([] : List (Str × Nat)) from rfl]
  obtain ⟨hnd, hmem⟩ := bumpFold_keys ((yearFiltered msgs f).map (fun m => dateKeyOf m.date))
    [] List.nodup_nil
  set ks := (yearFiltered msgs f).map (fun m => dateKeyOf m.date) with hksdef
  set keyList := AL.keys (ks.foldl AL.bump ([] : List (Str × Nat))) with hkl
  have hfs : keyList.toFinset = ks.toFinset := by
    ext x
    rw [List.mem_toFinset, List.mem_toFinset, hmem x]
    simp [AL.keys]
  have hcard : keyList.length = ks.dedup.length := by
    rw [← List.toFinset_card_of_nodup hnd, hfs]
    exact List.card_toFinset ks
  have hksne : ks ≠ [] := by
    rw [hksdef]
    intro hk0
    exact h (List.map_eq_nil_iff.mp hk0)
  have hne : keyList ≠ [] := by
    intro he
    rcases ks with _ | ⟨a, ks'⟩
    · exact hksne rfl
    · have ha : a ∈ keyList := (hmem a).mpr (Or.inr (List.mem_cons_self a ks'))
      rw [he] at ha
      exact absurd ha (List.not_mem_nil a)
  constructor
  · apply streakFold_pos
    intro he
    have := sortStrsAsc_length keyList
    rw [he] at this
    exact hne (List.length_eq_zero.mp this.symm)
  · calc streakFold (sortStrsAsc keyList) ≤ (sortStrsAsc keyList).length :=
          streakFold_le_length _
      _ = keyList.length := sortStrsAsc_length keyList
      _ = ks.dedup.length := hcard

theorem claim6_witness :
    yearFiltered [(⟨0, "A".toList, "x".toList⟩ : Message)] none ≠ [] ∧
    (1 ≤ (analyzeMessages asciiEnv 0 [(⟨0, "A".toList, "x".toList⟩ : Message)] none).longestStreak ∧
     (analyzeMessages asciiEnv 0 [(⟨0, "A".toList, "x".toList⟩ : Message)] none).longestStreak ≤
       (([(⟨0, "A".toList, "x".toList⟩ : Message)] : List Message).map
         (fun m => dateKeyOf m.date)).dedup.length) :=
  ⟨by decide, claim6_thm asciiEnv 0 [⟨0, "A".toList, "x".toList⟩] none (by decide)⟩

-- ---------------------------------------------------------------------------
-- Claim 10: count conservation
-- ---------------------------------------------------------------------------

theorem wordFreqFold_count (ws : List Str) (u : UserAgg) :
    (ws.foldl (fun u w =>
      if wordQualifies w then { u with wordFreq := AL.bump u.wordFreq w } else u) u).count
      = u.count := by
  induction ws generalizing u with
  | nil => rfl
  | cons w rest ih =>
    rw [List.foldl_cons, ih]
    split <;> rfl

theorem classifyAgg_count (env : JsEnv) (msg : Message) (u : UserAgg) :
    (classifyAgg env msg u).count = u.count + 1 := by
  unfold classifyAgg
  split
  · rfl
  · split
    · rfl
    · rw [show ∀ v : UserAgg, (if testWordRegex BYE_ALTS msg.content then
          { v with byeCount := v.byeCount + 1 } else v).count = v.count from
          fun v => by split <;> rfl]
      rw [show ∀ v : UserAgg, (if testWordRegex GN_ALTS msg.content then
          { v with nightCount := v.nightCount + 1 } else v).count = v.count from
          fun v => by split <;> rfl]
      rw [show ∀ v : UserAgg, (if testWordRegex GM_ALTS msg.content then
          { v with morningCount := v.morningCount + 1 } else v).count = v.count from
          fun v => by split <;> rfl]
      rw [wordFreqFold_count]
      split
      · split <;> split <;> rfl
      · split <;> split <;> rfl

theorem updateAgg_count (env : JsEnv) (ls : Str) (lt : Int) (msg : Message) (u : UserAgg) :
    (updateAgg env ls lt msg u).count = u.count + 1 := by
  simp only [updateAgg]
  split
  · split
    · exact classifyAgg_count env msg u
    · exact classifyAgg_count env msg u
  · exact classifyAgg_count env msg u

theorem lexFold_oneSided (ws : List Str) (u : UserAgg) :
    (ws.foldl (fun u w =>
      if wordQualifies w then { u with wordFreq := AL.bump u.wordFreq w } else u) u).oneSidedCount
      = u.oneSidedCount := by
  induction ws generalizing u with
  | nil => rfl
  | cons w rest ih =>
    rw [List.foldl_cons, ih]
    split <;> rfl

theorem classifyAgg_oneSided (env : JsEnv) (msg : Message) (u : UserAgg) :
    (classifyAgg env msg u).oneSidedCount = u.oneSidedCount := by
  unfold classifyAgg
  split
  · rfl
  · split
    · rfl
    · rw [show ∀ v : UserAgg, (if testWordRegex BYE_ALTS msg.content then
          { v with byeCount := v.byeCount + 1 } else v).oneSidedCount = v.oneSidedCount from
          fun v => by split <;> rfl]
      rw [show ∀ v : UserAgg, (if testWordRegex GN_ALTS msg.content then
          { v with nightCount := v.nightCount + 1 } else v).oneSidedCount = v.oneSidedCount from
          fun v => by split <;> rfl]
      rw [show ∀ v : UserAgg, (if testWordRegex GM_ALTS msg.content then
          { v with morningCount := v.morningCount + 1 } else v).oneSidedCount = v.oneSidedCount from
          fun v => by split <;> rfl]
      rw [lexFold_oneSided]
      split
      · split <;> split <;> rfl
      · split <;> split <;> rfl

theorem updateAgg_oneSided (env : JsEnv) (ls : Str) (lt : Int) (msg : Message) (u : UserAgg) :
    (updateAgg env ls lt msg u).oneSidedCount = u.oneSidedCount := by
  simp only [updateAgg]
  split
  · split
    · exact classifyAgg_oneSided env msg u
    · exact classifyAgg_oneSided env msg u
  · exact classifyAgg_oneSided env msg u

/-- Sum of a projection over an association list's values. -/
def projSum (g : α → Nat) (l : List (Str × α)) : Nat := (l.map (fun p => g p.2)).sum

theorem projSum_modify (g : α → Nat) (l : List (Str × α)) (k : Str) (f : α → α) (n : Nat)
    (hk : (AL.keys l).Nodup) (hmem : k ∈ AL.keys l) (hf : ∀ a, g (f a) = g a + n) :
    projSum g (AL.modify l k f) = projSum g l + n := by
  induction l with
  | nil => cases hmem
  | cons p rest ih =>
    simp only [AL.keys, List.map_cons, List.nodup_cons] at hk
    by_cases h : p.1 = k
    · simp only [AL.modify, List.map_cons, if_pos h]
      rw [show (List.map (fun p => if p.1 = k then (p.1, f p.2) else p) rest) =
          AL.modify rest k f from rfl,
        AL.modify_eq_of_not_mem rest k _ (h ▸ hk.1)]
      simp only [projSum, List.map_cons, List.sum_cons, hf]
      omega
    · have hmem' : k ∈ AL.keys rest := by
        rcases List.mem_cons.mp hmem with h' | h'
        · exact absurd h'.symm h
        · exact h'
      simp only [AL.modify, List.map_cons, if_neg h]
      rw [show (List.map (fun p => if p.1 = k then (p.1, f p.2) else p) rest) =
          AL.modify rest k f from rfl]
      simp only [projSum, List.map_cons, List.sum_cons]
      have := ih hk.2 hmem'
      simp only [projSum] at this
      omega

theorem projSum_upsert (g : α → Nat) (l : List (Str × α)) (k : Str) (d : α) (f : α → α)
    (n : Nat) (hk : (AL.keys l).Nodup) (hf : ∀ a, g (f a) = g a + n) (hd : g d = 0) :
    projSum g (AL.upsert l k d f) = projSum g l + n := by
  unfold AL.upsert
  split
  · exact projSum_modify g l k f n hk ((AL.find?_isSome_iff l k).mp (by assumption)) hf
  · simp [projSum, List.map_append, hf, hd]

/-- The user-table projections of the engine fold: nodup keys are preserved
and the total message count grows by the number of messages. -/
theorem foldState_userMap_inv (env : JsEnv) (l : List Message) (st0 : AState)
    (h : (AL.keys st0.userMap).Nodup) :
    (AL.keys ((l.foldl (stepMsg env) st0).userMap)).Nodup ∧
    projSum UserAgg.count ((l.foldl (stepMsg env) st0).userMap) =
      projSum UserAgg.count st0.userMap + l.length := by
  induction l generalizing st0 with
  | nil => exact ⟨h, rfl⟩
  | cons m rest ih =>
    rw [List.foldl_cons]
    have hstep : (stepMsg env st0 m).userMap = AL.upsert st0.userMap m.sender UserAgg.init
        (updateAgg env st0.lastSender st0.lastMsgTime m) := rfl
    obtain ⟨ih1, ih2⟩ := ih (stepMsg env st0 m) (by
      rw [hstep]
      exact AL.nodup_keys_upsert _ _ _ _ h)
    refine ⟨ih1, ?_⟩
    rw [ih2, hstep, projSum_upsert UserAgg.count st0.userMap m.sender UserAgg.init _ 1 h
      (fun a => updateAgg_count env st0.lastSender st0.lastMsgTime m a) rfl,
      List.length_cons]
    omega

theorem sum_lookup_counts (g : UserAgg → Nat) (um : List (Str × UserAgg))
    (hnd : (AL.keys um).Nodup) :
    ((AL.keys um).map (fun n => g ((AL.find? um n).getD UserAgg.init))).sum = projSum g um := by
  induction um with
  | nil => rfl
  | cons p rest ih =>
    simp only [AL.keys, List.map_cons, List.nodup_cons] at hnd
    simp only [AL.keys, List.map_cons, List.sum_cons, projSum]
    rw [show AL.find? (p :: rest) p.1 = some p.2 from by
      simp [AL.find?]]
    have hmap : (AL.keys rest).map (fun n => g ((AL.find? (p :: rest) n).getD UserAgg.init)) =
        (AL.keys rest).map (fun n => g ((AL.find? rest n).getD UserAgg.init)) := by
      apply List.map_congr_left
      intro n hn
      rw [show AL.find? (p :: rest) n = AL.find? rest n from by
        simp only [AL.find?]
        rw [if_neg (fun he => hnd.1 (by rw [he]; exact hn))]]
    rw [show List.map Prod.fst rest = AL.keys rest from rfl, hmap, ih hnd.2]
    simp [projSum]

theorem insDescBy_perm (key : α → Nat) (x : α) (l : List α) :
    (insDescBy key x l).Perm (x :: l) := by
  induction l with
  | nil => exact List.Perm.refl _
  | cons y ys ih =>
    unfold insDescBy
    split
    · exact ((ih.cons y).trans (List.Perm.swap x y ys)).symm.symm
    · exact List.Perm.refl _

theorem sortDescBy_perm (key : α → Nat) (l : List α) : (sortDescBy key l).Perm l := by
  suffices h : ∀ acc : List α, (l.foldl (fun a x => insDescBy key x a) acc).Perm (acc ++ l) by
    simpa using h []
  induction l with
  | nil => intro acc; simp
  | cons x xs ih =>
    intro acc
    rw [List.foldl_cons]
    refine (ih (insDescBy key x acc)).trans ?_
    refine (List.Perm.append_right xs (insDescBy_perm key x acc)).trans ?_
    rw [show (x :: acc) ++ xs = x :: (acc ++ xs) from rfl]
    exact (List.perm_middle).symm

/-- A fold whose every step preserves a projection preserves it overall. -/
theorem foldl_fix {α β γ : Type _} (g : α → γ) (f : α → β → α) (l : List β) (a : α)
    (hf : ∀ x b, g (f x b) = g x) : g (l.foldl f a) = g a := by
  induction l generalizing a with
  | nil => rfl
  | cons b rest ih => rw [List.foldl_cons, ih, hf]

theorem projSum_modify_pres (g : α → Nat) (l : List (Str × α)) (k : Str) (f : α → α)
    (hf : ∀ a, g (f a) = g a) : projSum g (AL.modify l k f) = projSum g l := by
  unfold projSum AL.modify
  rw [List.map_map]
  apply congrArg List.sum
  apply List.map_congr_left
  intro p _
  by_cases h : p.1 = k <;> simp [Function.comp, h, hf]

theorem keys_modify_pres (l : List (Str × α)) (k : Str) (f : α → α) :
    AL.keys (AL.modify l k f) = AL.keys l := AL.keys_modify l k f

theorem applyOneSided_keys (um : List (Str × UserAgg)) (bd : List (Str × List (Str × Nat))) :
    AL.keys (applyOneSided um bd) = AL.keys um := by
  unfold applyOneSided
  apply foldl_fix AL.keys
  intro um' e
  dsimp only
  split
  · apply foldl_fix AL.keys
    intro um'' p
    split
    · split
      · exact AL.keys_modify _ _ _
      · rfl
    · rfl
  · rfl

theorem applyOneSided_countSum (um : List (Str × UserAgg)) (bd : List (Str × List (Str × Nat))) :
    projSum UserAgg.count (applyOneSided um bd) = projSum UserAgg.count um := by
  unfold applyOneSided
  apply foldl_fix (projSum UserAgg.count)
  intro um' e
  dsimp only
  split
  · apply foldl_fix (projSum UserAgg.count)
    intro um'' p
    split
    · split
      · exact projSum_modify_pres _ _ _ _ (fun a => rfl)
      · rfl
    · rfl
  · rfl

theorem stepMsg_hourlyCounts (env : JsEnv) (st : AState) (m : Message) :
    (stepMsg env st m).hourlyCounts =
      st.hourlyCounts.set (dateGetHours m.date).toNat
        (st.hourlyCounts.getD (dateGetHours m.date).toNat 0 + 1) := rfl

theorem dateGetHours_toNat_lt (t : Int) : (dateGetHours t).toNat < 24 := by
  unfold dateGetHours
  have h1 : 0 ≤ (t.fdiv 3600000).emod 24 := Int.emod_nonneg _ (by norm_num)
  have h2 : (t.fdiv 3600000).emod 24 < 24 := Int.emod_lt_of_pos _ (by norm_num)
  omega

theorem setBump_sum (l : List Nat) (i : Nat) (h : i < l.length) :
    (l.set i (l.getD i 0 + 1)).sum = l.sum + 1 := by
  induction l generalizing i with
  | nil => cases h
  | cons x xs ih =>
    cases i with
    | zero =>
      simp only [List.set, List.getD_cons_zero, List.sum_cons]
      omega
    | succ n =>
      rw [show (x :: xs).set (n + 1) ((x :: xs).getD (n + 1) 0 + 1) =
          x :: xs.set n (xs.getD n 0 + 1) from by rw [List.getD_cons_succ]; rfl]
      simp only [List.sum_cons]
      rw [ih n (by simpa using h)]
      omega

theorem foldState_hourly (env : JsEnv) (l : List Message) (st0 : AState)
    (hlen : st0.hourlyCounts.length = 24) :
    (l.foldl (stepMsg env) st0).hourlyCounts.length = 24 ∧
    (l.foldl (stepMsg env) st0).hourlyCounts.sum = st0.hourlyCounts.sum + l.length := by
  induction l generalizing st0 with
  | nil => exact ⟨hlen, rfl⟩
  | cons m rest ih =>
    rw [List.foldl_cons]
    have hstep := stepMsg_hourlyCounts env st0 m
    have hlt : (dateGetHours m.date).toNat < st0.hourlyCounts.length := by
      rw [hlen]
      exact dateGetHours_toNat_lt m.date
    obtain ⟨ih1, ih2⟩ := ih (stepMsg env st0 m) (by rw [hstep, List.length_set]; exact hlen)
    refine ⟨ih1, ?_⟩
    rw [ih2, hstep, setBump_sum _ _ hlt, List.length_cons]
    omega

theorem enum_map_snd_comp {α γ : Type _} (l : List α) (g : α → γ) :
    l.enum.map (fun p => g p.2) = l.map g := by
  rw [show (fun p : Nat × α => g p.2) = g ∘ Prod.snd from rfl, ← List.map_map,
    List.enum_map_snd]

/-- C10: for a nonempty filtered list, per-user message counts and the
24-bucket hour histogram both sum to the total message count. -/
theorem claim10_thm (env : JsEnv) (clock : Int) (msgs : List Message) (f : Option Int)
    (h : yearFiltered msgs f ≠ []) :
    (((analyzeMessages env clock msgs f).users.map UserStat.messageCount).sum =
      (analyzeMessages env clock msgs f).totalMessages) ∧
    (((analyzeMessages env clock msgs f).hourlyHeatmap.map Prod.snd).sum =
      (analyzeMessages env clock msgs f).totalMessages) := by
  rw [analyzeMessages_nonempty env clock msgs f h]
  have htot : (analyzeBody env msgs (yearFiltered msgs f)).totalMessages =
      (yearFiltered msgs f).length := rfl
  rw [htot]
  set l := yearFiltered msgs f with hl
  set st := l.foldl (stepMsg env) initAState with hst
  set UM := applyOneSided st.userMap st.dailyBreakdown with hUM
  obtain ⟨hnd0, hsum0⟩ := foldState_userMap_inv env l initAState (by exact List.nodup_nil)
  constructor
  · have husers : (analyzeBody env msgs l).users =
        (sortDescBy (fun n => (((AL.find? UM n).map UserAgg.count).getD 0))
          (AL.keys UM)).enum.map
          (fun p => mkUserStat p.1 p.2 ((AL.find? UM p.2).getD UserAgg.init)) := rfl
    rw [husers, List.map_map]
    rw [show (UserStat.messageCount ∘ fun p : Nat × Str =>
        mkUserStat p.1 p.2 ((AL.find? UM p.2).getD UserAgg.init)) =
        (fun p : Nat × Str => ((AL.find? UM p.2).getD UserAgg.init).count) from rfl]
    rw [enum_map_snd_comp
      (sortDescBy (fun n => (((AL.find? UM n).map UserAgg.count).getD 0)) (AL.keys UM))
      (fun n => ((AL.find? UM n).getD UserAgg.init).count)]
    have hperm := (sortDescBy_perm (fun n => (((AL.find? UM n).map UserAgg.count).getD 0))
      (AL.keys UM)).map (fun n => ((AL.find? UM n).getD UserAgg.init).count)
    rw [hperm.sum_eq]
    have hndUM : (AL.keys UM).Nodup := by
      rw [hUM, applyOneSided_keys]
      exact hnd0
    rw [sum_lookup_counts UserAgg.count UM hndUM, hUM, applyOneSided_countSum]
    rw [hst, hsum0]
    rw [show projSum UserAgg.count initAState.userMap = 0 from rfl]
    omega
  · have hheat : (analyzeBody env msgs l).hourlyHeatmap = st.hourlyCounts.enum := rfl
    rw [hheat]
    rw [show st.hourlyCounts.enum.map Prod.snd = st.hourlyCounts from List.enum_map_snd _]
    obtain ⟨hlen, hsum⟩ := foldState_hourly env l initAState (by rfl)
    rw [hst, hsum]
    rw [show initAState.hourlyCounts.sum = 0 from rfl]
    omega

theorem claim10_witness :
    yearFiltered [(⟨0, "A".toList, "x".toList⟩ : Message),
      (⟨5000, "B".toList, "y z".toList⟩ : Message)] none ≠ [] ∧
    ((((analyzeMessages asciiEnv 0 [(⟨0, "A".toList, "x".toList⟩ : Message),
        (⟨5000, "B".toList, "y z".toList⟩ : Message)] none).users.map
          UserStat.messageCount).sum =
      (analyzeMessages asciiEnv 0 [(⟨0, "A".toList, "x".toList⟩ : Message),
        (⟨5000, "B".toList, "y z".toList⟩ : Message)] none).totalMessages) ∧
     (((analyzeMessages asciiEnv 0 [(⟨0, "A".toList, "x".toList⟩ : Message),
        (⟨5000, "B".toList, "y z".toList⟩ : Message)] none).hourlyHeatmap.map
          Prod.snd).sum =
      (analyzeMessages asciiEnv 0 [(⟨0, "A".toList, "x".toList⟩ : Message),
        (⟨5000, "B".toList, "y z".toList⟩ : Message)] none).totalMessages)) :=
  ⟨by decide, claim10_thm asciiEnv 0 [⟨0, "A".toList, "x".toList⟩,
    ⟨5000, "B".toList, "y z".toList⟩] none (by decide)⟩


-- ---------------------------------------------------------------------------
-- Claim 9: the silence breaker
-- ---------------------------------------------------------------------------

/-- Taken from the claim's words: the senders of messages that follow a
silence of more than six hours, scanning with the previous message's
timestamp. -/
def afterGapGo (prev : Int) : List Message → List Str
  | [] => []
  | m :: rest =>
    if 21600000 < m.date - prev then m.sender :: afterGapGo m.date rest
    else afterGapGo m.date rest

/-- Taken from the claim's words: how often sender `s` wrote the first
message after a gap exceeding six hours (the first message overall not
included). -/
def specAfterGapCount (msgs : List Message) (s : Str) : Nat :=
  match msgs with
  | [] => 0
  | m :: rest => (afterGapGo m.date rest).count s

/-- The conversation starts the engine credits: the first message overall
and every message after a gap exceeding six hours. -/
def startSenders (msgs : List Message) : List Str :=
  match msgs with
  | [] => []
  | m :: rest => m.sender :: afterGapGo m.date rest

/-- How often sender `s` is credited with a conversation start. -/
def specStartCount (msgs : List Message) (s : Str) : Nat :=
  (startSenders msgs).count s

/-- The date of the last message of the list, with a default for the empty
list. -/
def lastDate (l : List Message) (d : Int) : Int :=
  match l with
  | [] => d
  | m :: rest => lastDate rest m.date

theorem afterGapGo_snoc (prev : Int) (l : List Message) (m : Message) :
    afterGapGo prev (l ++ [m]) = afterGapGo prev l ++
      (if 21600000 < m.date - lastDate l prev then [m.sender] else []) := by
  induction l generalizing prev with
  | nil => rfl
  | cons a rest ih =>
    rw [List.cons_append]
    show (if 21600000 < a.date - prev then a.sender :: afterGapGo a.date (rest ++ [m])
          else afterGapGo a.date (rest ++ [m])) = _
    rw [ih a.date]
    show _ = (if 21600000 < a.date - prev then a.sender :: afterGapGo a.date rest
              else afterGapGo a.date rest) ++
             (if 21600000 < m.date - lastDate rest a.date then [m.sender] else [])
    split <;> simp

theorem startSenders_snoc (l : List Message) (m : Message) (h : l ≠ []) :
    startSenders (l ++ [m]) = startSenders l ++
      (if 21600000 < m.date - lastDate l 0 then [m.sender] else []) := by
  rcases l with _ | ⟨a, rest⟩
  · exact absurd rfl h
  · rw [List.cons_append]
    show a.sender :: afterGapGo a.date (rest ++ [m]) =
      (a.sender :: afterGapGo a.date rest) ++
        (if 21600000 < m.date - lastDate (a :: rest) 0 then [m.sender] else [])
    rw [afterGapGo_snoc a.date rest m]
    show _ = (a.sender :: afterGapGo a.date rest) ++
        (if 21600000 < m.date - lastDate rest a.date then [m.sender] else [])
    simp

theorem specStartCount_snoc (l : List Message) (m : Message) (hl : l ≠ []) (s : Str) :
    specStartCount (l ++ [m]) s = specStartCount l s +
      (if 21600000 < m.date - lastDate l 0 then List.count s [m.sender] else 0) := by
  unfold specStartCount
  rw [startSenders_snoc l m hl, List.count_append]
  split
  · rfl
  · simp

theorem stepMsg_idx (env : JsEnv) (st : AState) (m : Message) :
    (stepMsg env st m).idx = st.idx + 1 := rfl

theorem stepMsg_lastMsgTime (env : JsEnv) (st : AState) (m : Message) :
    (stepMsg env st m).lastMsgTime = m.date := rfl

theorem foldState_idx (env : JsEnv) (l : List Message) (st0 : AState) :
    (l.foldl (stepMsg env) st0).idx = st0.idx + l.length := by
  induction l generalizing st0 with
  | nil => rfl
  | cons m rest ih =>
    rw [List.foldl_cons, ih, stepMsg_idx, List.length_cons]
    omega

theorem foldState_lastMsgTime (env : JsEnv) (l : List Message) (st0 : AState) :
    (l.foldl (stepMsg env) st0).lastMsgTime = lastDate l st0.lastMsgTime := by
  induction l generalizing st0 with
  | nil => rfl
  | cons m rest ih =>
    rw [List.foldl_cons, ih, stepMsg_lastMsgTime]
    rfl

theorem stepMsg_startersMap (env : JsEnv) (st : AState) (m : Message) :
    (stepMsg env st m).startersMap =
      if st.idx = 0 ∨ 21600000 < m.date - st.lastMsgTime then
        AL.bump st.startersMap m.sender
      else st.startersMap := rfl

/-- The starts table after the engine loop: nodup keys and, for every
sender, the looked-up value is exactly the conversation-start count. -/
theorem startersMap_inv (env : JsEnv) (l : List Message) :
    (AL.keys ((l.foldl (stepMsg env) initAState).startersMap)).Nodup ∧
    (∀ s, (AL.find? ((l.foldl (stepMsg env) initAState).startersMap) s).getD 0 =
      specStartCount l s) := by
  induction l using List.reverseRecOn with
  | nil => exact ⟨List.nodup_nil, fun s => rfl⟩
  | append_singleton l m ih =>
    obtain ⟨ih1, ih2⟩ := ih
    rw [List.foldl_append, List.foldl_cons, List.foldl_nil, stepMsg_startersMap]
    rcases l with _ | ⟨m0, rest⟩
    · rw [if_pos (Or.inl (show (List.foldl (stepMsg env) initAState []).idx = 0 from rfl))]
      constructor
      · exact AL.nodup_keys_bump _ _ List.nodup_nil
      · intro s
        by_cases hs : s = m.sender
        · subst hs
          rw [show (List.foldl (stepMsg env) initAState []).startersMap =
            initAState.startersMap from rfl]
          rw [AL.find?_bump_self,
            show AL.find? initAState.startersMap m.sender = none from rfl]
          simp [specStartCount, startSenders, afterGapGo]
        · rw [show (List.foldl (stepMsg env) initAState []).startersMap =
            initAState.startersMap from rfl]
          rw [AL.find?_bump_ne _ _ _ hs]
          show (0 : Nat) = specStartCount [m] s
          simp [specStartCount, startSenders, afterGapGo, List.count_cons,
            List.count_nil, Ne.symm hs]
    · have hlen : ((m0 :: rest).foldl (stepMsg env) initAState).idx = rest.length + 1 := by
        rw [foldState_idx, List.length_cons, show initAState.idx = 0 from rfl]
        omega
      have hlast : ((m0 :: rest).foldl (stepMsg env) initAState).lastMsgTime =
          lastDate (m0 :: rest) 0 := by
        rw [foldState_lastMsgTime]
        rfl
      rw [hlast]
      by_cases hgap : 21600000 < m.date - lastDate (m0 :: rest) 0
      · rw [if_pos (Or.inr hgap)]
        refine ⟨AL.nodup_keys_bump _ _ ih1, ?_⟩
        intro s
        rw [specStartCount_snoc (m0 :: rest) m (by simp) s, if_pos hgap]
        by_cases hs : s = m.sender
        · subst hs
          rw [AL.find?_bump_self, Option.getD_some, ih2 m.sender]
          simp [List.count_cons]
        · rw [AL.find?_bump_ne _ _ _ hs, ih2 s]
          simp [List.count_cons, List.count_nil, Ne.symm hs]
      · have hcond : ¬(((m0 :: rest).foldl (stepMsg env) initAState).idx = 0 ∨
            21600000 < m.date - lastDate (m0 :: rest) 0) := by
          rintro (h0 | hgap')
          · rw [hlen] at h0
            omega
          · exact hgap hgap'
        rw [if_neg hcond]
        refine ⟨ih1, ?_⟩
        intro s
        rw [specStartCount_snoc (m0 :: rest) m (by simp) s, if_neg hgap, ih2 s]
        rfl

theorem AL.find?_mem {α : Type} (l : List (Str × α)) (k : Str) (v : α)
    (h : AL.find? l k = some v) : (k, v) ∈ l := by
  induction l with
  | nil => cases h
  | cons p rest ih =>
    unfold AL.find? at h
    rcases Decidable.em (p.1 = k) with hp | hp
    · rw [if_pos hp] at h
      rcases p with ⟨pk, pv⟩
      cases h
      cases hp
      exact List.mem_cons_self _ _
    · rw [if_neg hp] at h
      exact List.mem_cons_of_mem _ (ih h)

theorem AL.find?_of_mem_nodup {α : Type} (l : List (Str × α)) (p : Str × α)
    (hp : p ∈ l) (hnd : (AL.keys l).Nodup) : AL.find? l p.1 = some p.2 := by
  induction l with
  | nil => cases hp
  | cons q rest ih =>
    simp only [AL.keys, List.map_cons, List.nodup_cons] at hnd
    rcases List.mem_cons.mp hp with rfl | hp'
    · unfold AL.find?
      rw [if_pos rfl]
    · unfold AL.find?
      rw [if_neg (fun he => hnd.1 (by rw [he]; exact List.mem_map_of_mem Prod.fst hp'))]
      exact ih hp' hnd.2

theorem argmaxFold_spec (sm : List (Str × Nat)) (b : Str) (v : Int) :
    (∀ p ∈ sm, (p.2 : Int) ≤ (sm.foldl (fun (acc : Str × Int) p =>
      if (p.2 : Int) > acc.2 then (p.1, (p.2 : Int)) else acc) (b, v)).2) ∧
    v ≤ (sm.foldl (fun (acc : Str × Int) p =>
      if (p.2 : Int) > acc.2 then (p.1, (p.2 : Int)) else acc) (b, v)).2 ∧
    ((sm.foldl (fun (acc : Str × Int) p =>
      if (p.2 : Int) > acc.2 then (p.1, (p.2 : Int)) else acc) (b, v)) = (b, v) ∨
     ∃ p ∈ sm, (sm.foldl (fun (acc : Str × Int) p =>
      if (p.2 : Int) > acc.2 then (p.1, (p.2 : Int)) else acc) (b, v)) = (p.1, (p.2 : Int))) := by
  induction sm generalizing b v with
  | nil => exact ⟨fun p hp => absurd hp (List.not_mem_nil p), le_refl v, Or.inl rfl⟩
  | cons q rest ih =>
    rw [List.foldl_cons]
    by_cases hq : (q.2 : Int) > v
    · rw [if_pos hq]
      obtain ⟨ih1, ih2, ih3⟩ := ih q.1 (q.2 : Int)
      refine ⟨?_, by omega, ?_⟩
      · intro p hp
        rcases List.mem_cons.mp hp with rfl | hp'
        · exact ih2
        · exact ih1 p hp'
      · rcases ih3 with he | ⟨p, hp, he⟩
        · exact Or.inr ⟨q, List.mem_cons_self q rest, he⟩
        · exact Or.inr ⟨p, List.mem_cons_of_mem q hp, he⟩
    · rw [if_neg hq]
      obtain ⟨ih1, ih2, ih3⟩ := ih b v
      refine ⟨?_, ih2, ?_⟩
      · intro p hp
        rcases List.mem_cons.mp hp with rfl | hp'
        · omega
        · exact ih1 p hp'
      · rcases ih3 with he | ⟨p, hp, he⟩
        · exact Or.inl he
        · exact Or.inr ⟨p, List.mem_cons_of_mem q hp, he⟩

theorem topStarterOf_spec (seed : Str) (sm : List (Str × Nat))
    (hnd : (AL.keys sm).Nodup) (hne : sm ≠ []) :
    ∃ c, AL.find? sm (topStarterOf seed sm) = some c ∧ ∀ p ∈ sm, p.2 ≤ c := by
  obtain ⟨h1, h2, h3⟩ := argmaxFold_spec sm seed (-1)
  rcases h3 with he | ⟨p, hp, he⟩
  · exfalso
    rcases sm with _ | ⟨q, rest⟩
    · exact hne rfl
    · have hle := h1 q (List.mem_cons_self q rest)
      rw [he] at hle
      omega
  · refine ⟨p.2, ?_, ?_⟩
    · rw [show topStarterOf seed sm = p.1 from by unfold topStarterOf; rw [he]]
      exact AL.find?_of_mem_nodup sm p hp hnd
    · intro q hq
      have hle := h1 q hq
      rw [he] at hle
      have hle2 : (q.2 : Int) ≤ (p.2 : Int) := hle
      exact_mod_cast hle2

def c9MsgA : Message := { date := 0, sender := "A".toList, content := "x".toList }

def c9MsgB : Message := { date := 25200000, sender := "B".toList, content := "y".toList }

def c9Msgs : List Message := [c9MsgA, c9MsgB]

/-- C9 counterexample: for the two-message list with sender "A" at time 0 and
sender "B" seven hours later, the engine reports "A" as the silence breaker,
yet "A" wrote no first message after a gap exceeding 6 hours while "B" wrote
one: the reported sender does not maximize the after-gap count.  The engine
also credits the very first message of the chat as a conversation start,
which is what puts "A" ahead under its own counting. -/
theorem claim9_counterexample :
    (analyzeMessages asciiEnv 0 c9Msgs none).silenceBreakerName = "A".toList ∧
    specAfterGapCount c9Msgs ("A".toList) <
      specAfterGapCount c9Msgs ("B".toList) := by decide

/-- C9 amended: for every environment, clock, message list and year filter,
the reported silence-breaker name maximizes the count of credited
conversation starts, where the first message overall is credited as well
(not only first messages after a 6-hour gap). -/
theorem claim9_amended (env : JsEnv) (clock : Int) (msgs : List Message)
    (f : Option Int) (s : Str) :
    specStartCount (yearFiltered msgs f) s ≤
      specStartCount (yearFiltered msgs f)
        ((analyzeMessages env clock msgs f).silenceBreakerName) := by
  by_cases h : yearFiltered msgs f = []
  · rw [h]
    exact Nat.zero_le _
  · rw [analyzeMessages_nonempty env clock msgs f h]
    obtain ⟨seed, hseed⟩ : ∃ seed,
        (analyzeBody env msgs (yearFiltered msgs f)).silenceBreakerName =
          topStarterOf seed
            ((yearFiltered msgs f).foldl (stepMsg env) initAState).startersMap :=
      ⟨_, rfl⟩
    rw [hseed]
    obtain ⟨hnd, hlook⟩ := startersMap_inv env (yearFiltered msgs f)
    have hne : ((yearFiltered msgs f).foldl (stepMsg env) initAState).startersMap ≠ [] := by
      intro he
      rcases hl : yearFiltered msgs f with _ | ⟨m0, rest⟩
      · exact h hl
      · rw [hl] at hlook he
        have h1 := hlook m0.sender
        rw [he] at h1
        rw [show (AL.find? ([] : List (Str × Nat)) m0.sender).getD 0 = 0 from rfl] at h1
        have h2 : (1 : Nat) ≤ specStartCount (m0 :: rest) m0.sender := by
          unfold specStartCount startSenders
          simp [List.count_cons]
        omega
    obtain ⟨c, hc, hmax⟩ := topStarterOf_spec seed _ hnd hne
    have hcn := hlook (topStarterOf seed
      ((yearFiltered msgs f).foldl (stepMsg env) initAState).startersMap)
    rw [hc, Option.getD_some] at hcn
    rcases hfs : AL.find? (((yearFiltered msgs f).foldl (stepMsg env) initAState).startersMap) s
        with _ | cs
    · have h0 := hlook s
      rw [hfs] at h0
      rw [show (Option.getD (none : Option Nat) 0) = 0 from rfl] at h0
      rw [← h0]
      exact Nat.zero_le _
    · have hmem := AL.find?_mem _ s cs hfs
      have hle := hmax (s, cs) hmem
      have hs := hlook s
      rw [hfs, Option.getD_some] at hs
      rw [← hs, ← hcn]
      exact hle

-- ---------------------------------------------------------------------------
-- Claim 8: the timestamp grammar
-- ---------------------------------------------------------------------------

theorem digit_toNat (c : Char) (h : isAsciiDigit c = true) :
    48 ≤ c.toNat ∧ c.toNat ≤ 57 := by
  unfold isAsciiDigit at h
  simp only [Bool.and_eq_true, decide_eq_true_eq] at h
  obtain ⟨ha, hb⟩ := h
  exact ⟨ha, hb⟩

theorem digit_not_space (c : Char) (h : isAsciiDigit c = true) : jsIsSpace c = false := by
  obtain ⟨h1, h2⟩ := digit_toNat c h
  cases hsp : jsIsSpace c
  · rfl
  · exfalso
    unfold jsIsSpace at hsp
    simp only [Bool.or_eq_true, decide_eq_true_eq, Bool.and_eq_true] at hsp
    rcases hsp with ((((((((((((((hx|hx)|hx)|hx)|hx)|hx)|hx)|hx)|⟨hx,hy⟩)|hx)|hx)|hx)|hx)|hx)|hx) <;> omega

theorem digit_ne_lbracket (c : Char) (h : isAsciiDigit c = true) : c ≠ '[' := by
  intro he
  subst he
  exact absurd h (by decide)

theorem sep_not_digit (s : Char) (hs : s ∈ ['-', '.', '/']) : isAsciiDigit s = false := by
  simp only [List.mem_cons, List.mem_singleton, List.not_mem_nil, or_false] at hs
  rcases hs with rfl | rfl | rfl <;> decide

theorem tsep_not_digit (s : Char) (hs : s ∈ [':', '.']) : isAsciiDigit s = false := by
  simp only [List.mem_cons, List.mem_singleton, List.not_mem_nil, or_false] at hs
  rcases hs with rfl | rfl <;> decide

theorem stripLeadBracket_cons (c : Char) (t : Str) (hc : c ≠ '[') :
    stripLeadBracket (c :: t) = c :: t := by
  unfold stripLeadBracket
  split
  · next r heq =>
    exfalso
    injection heq with h1 h2
    exact hc h1
  · rfl

theorem takeWhile_digits_append (d r : Str) (hd : d.all isAsciiDigit = true)
    (hr : ((r.head?).map isAsciiDigit).getD false = false) :
    (d ++ r).takeWhile isAsciiDigit = d := by
  induction d with
  | nil =>
    cases r with
    | nil => rfl
    | cons c t =>
      simp only [List.head?] at hr
      simp at hr
      simp [List.takeWhile_cons, hr]
  | cons a d' ih =>
    simp only [List.all_cons, Bool.and_eq_true] at hd
    simp [List.takeWhile_cons, hd.1, ih hd.2]

theorem digitsBetween_append (lo hi : Nat) (d r : Str) (hd : d.all isAsciiDigit = true)
    (hlo : lo ≤ d.length) (hhi : d.length ≤ hi)
    (hr : ((r.head?).map isAsciiDigit).getD false = false) :
    digitsBetween lo hi (d ++ r) = some (d, r) := by
  unfold digitsBetween
  rw [takeWhile_digits_append d r hd hr, if_pos ⟨hlo, hhi⟩, List.drop_left]

theorem exactDigits_append (d r : Str) (hd : d.all isAsciiDigit = true) (n : Nat)
    (hn : d.length = n) : exactDigits n (d ++ r) = some (d, r) := by
  subst hn
  unfold exactDigits
  rw [List.take_left, List.drop_left, if_pos ⟨rfl, hd⟩]

theorem charIn_cons (cs : List Char) (c : Char) (r : Str) (hc : c ∈ cs) :
    charIn cs (c :: r) = some (c, r) := by
  show (if c ∈ cs then some (c, r) else none) = some (c, r)
  rw [if_pos hc]

theorem digitsBetween_append_cons (lo hi : Nat) (d : Str) (c : Char) (r' : Str)
    (hd : d.all isAsciiDigit = true) (hlo : lo ≤ d.length) (hhi : d.length ≤ hi)
    (hc : isAsciiDigit c = false) :
    digitsBetween lo hi (d ++ c :: r') = some (d, c :: r') :=
  digitsBetween_append lo hi d (c :: r') hd hlo hhi (by simp [hc])

theorem tsTime_spec (hh mm rest : Str) (tsep c0 c1 : Char)
    (hhh : hh.all isAsciiDigit = true) (hlh : 1 ≤ hh.length) (huh : hh.length ≤ 2)
    (hmm2 : mm.all isAsciiDigit = true) (hlm : mm.length = 2)
    (hts : tsep ∈ [':', '.'])
    (hc0 : ¬(c0 = ':' ∨ c0 = '.')) (hc0s : jsIsSpace c0 = false)
    (hc0l : isAsciiLetter c0 = false) :
    tsTime (hh ++ tsep :: (mm ++ c0 :: c1 :: rest)) =
      some (hh ++ tsep :: mm, c0 :: c1 :: rest) := by
  simp only [tsTime]
  rw [digitsBetween_append_cons 1 2 _ _ _ hhh hlh huh (tsep_not_digit tsep hts)]
  simp only [Option.bind_eq_bind, Option.some_bind]
  rw [charIn_cons _ _ _ hts]
  simp only [Option.some_bind]
  rw [exactDigits_append mm (c0 :: c1 :: rest) hmm2 2 hlm]
  simp only [Option.some_bind]
  rw [if_neg hc0]
  simp only [takeLetters2]
  rw [if_neg (by simp [hc0s]), if_neg (by simp [hc0l])]
  simp

theorem takeLetters2_not_letter (c : Char) (t : Str) (hc : isAsciiLetter c = false) :
    takeLetters2 (c :: t) = none := by
  cases t with
  | nil => simp [takeLetters2, hc]
  | cons b u => simp [takeLetters2, hc]

theorem tsTime_spec_sp (hh mm rest : Str) (tsep c0 c1 : Char)
    (hhh : hh.all isAsciiDigit = true) (hlh : 1 ≤ hh.length) (huh : hh.length ≤ 2)
    (hmm2 : mm.all isAsciiDigit = true) (hlm : mm.length = 2)
    (hts : tsep ∈ [':', '.'])
    (hc0 : ¬(c0 = ':' ∨ c0 = '.')) (hc0s : jsIsSpace c0 = true)
    (hc1l : isAsciiLetter c1 = false) :
    tsTime (hh ++ tsep :: (mm ++ c0 :: c1 :: rest)) =
      some (hh ++ tsep :: mm, c0 :: c1 :: rest) := by
  simp only [tsTime]
  rw [digitsBetween_append_cons 1 2 _ _ _ hhh hlh huh (tsep_not_digit tsep hts)]
  simp only [Option.bind_eq_bind, Option.some_bind]
  rw [charIn_cons _ _ _ hts]
  simp only [Option.some_bind]
  rw [exactDigits_append mm (c0 :: c1 :: rest) hmm2 2 hlm]
  simp only [Option.some_bind]
  rw [if_neg hc0]
  dsimp only
  rw [if_pos hc0s]
  rw [takeLetters2_not_letter c1 rest hc1l]
  simp

theorem takeWhile_space_one (b : Char) (t u : Str) (hb : jsIsSpace b = false) :
    List.takeWhile jsIsSpace (' ' :: ((b :: t) ++ u)) = [' '] := by
  rw [List.cons_append, List.takeWhile_cons, if_pos (show jsIsSpace ' ' = true from rfl),
    List.takeWhile_cons, if_neg (by simp [hb])]

theorem tsClose_dash (rest : Str) : tsClose (' ' :: '-' :: ' ' :: rest) = rest := rfl

theorem tsClose_bracket (rest : Str) (hrB : rest.head? ≠ some '-') :
    tsClose (']' :: ' ' :: rest) = ' ' :: rest := by
  cases rest with
  | nil => rfl
  | cons x t =>
    cases t with
    | nil => rfl
    | cons y u =>
      have hx : x ≠ '-' := fun he => hrB (by rw [he]; rfl)
      have hneg : ¬(jsIsSpace ' ' = true ∧ x = '-' ∧ jsIsSpace y = true) := by
        intro hcon
        exact hx hcon.2.1
      show (if jsIsSpace ' ' = true ∧ x = '-' ∧ jsIsSpace y = true
            then u else ' ' :: x :: y :: u) = ' ' :: x :: y :: u
      rw [if_neg hneg]

theorem tsAfterDate_android (dc mm rest hht : Str) (b tsep : Char)
    (hhh : (b :: hht).all isAsciiDigit = true) (huh : (b :: hht).length ≤ 2)
    (hmm2 : mm.all isAsciiDigit = true) (hlm : mm.length = 2)
    (hts : tsep ∈ [':', '.']) :
    tsAfterDate dc (',' :: ' ' :: ((b :: hht) ++ tsep :: (mm ++ ' ' :: '-' :: ' ' :: rest))) =
      some (dc, (b :: hht) ++ tsep :: mm, rest) := by
  have hb : isAsciiDigit b = true := by
    simp only [List.all_cons, Bool.and_eq_true] at hhh
    exact hhh.1
  have hbns : jsIsSpace b = false := digit_not_space b hb
  simp only [tsAfterDate, true_or, if_true,
    takeWhile_space_one b hht (tsep :: (mm ++ ' ' :: '-' :: ' ' :: rest)) hbns]
  have hg : (guard ((([' '] : Str)) ≠ []) : Option Unit) = some () := rfl
  simp only [hg, Option.bind_eq_bind, Option.some_bind, List.length_cons, List.length_nil,
    List.drop_succ_cons, List.drop_zero]
  rw [List.cons_append]
  rw [← List.cons_append]
  rw [tsTime_spec_sp (b :: hht) mm (' ' :: rest) tsep ' ' '-' hhh (by simp) huh hmm2 hlm hts
    (by decide) rfl (by decide)]
  simp only [Option.some_bind]
  rw [tsClose_dash]
  rfl

theorem tsAfterDate_bracket (dc mm rest hht : Str) (b tsep : Char)
    (hhh : (b :: hht).all isAsciiDigit = true) (huh : (b :: hht).length ≤ 2)
    (hmm2 : mm.all isAsciiDigit = true) (hlm : mm.length = 2)
    (hts : tsep ∈ [':', '.']) (hrB : rest.head? ≠ some '-') :
    tsAfterDate dc (',' :: ' ' :: ((b :: hht) ++ tsep :: (mm ++ ']' :: ' ' :: rest))) =
      some (dc, (b :: hht) ++ tsep :: mm, ' ' :: rest) := by
  have hb : isAsciiDigit b = true := by
    simp only [List.all_cons, Bool.and_eq_true] at hhh
    exact hhh.1
  have hbns : jsIsSpace b = false := digit_not_space b hb
  simp only [tsAfterDate, true_or, if_true,
    takeWhile_space_one b hht (tsep :: (mm ++ ']' :: ' ' :: rest)) hbns]
  have hg : (guard ((([' '] : Str)) ≠ []) : Option Unit) = some () := rfl
  simp only [hg, Option.bind_eq_bind, Option.some_bind, List.length_cons, List.length_nil,
    List.drop_succ_cons, List.drop_zero]
  rw [List.cons_append]
  rw [← List.cons_append]
  rw [tsTime_spec (b :: hht) mm rest tsep ']' ' ' hhh (by simp) huh hmm2 hlm hts
    (by decide) rfl (by decide)]
  simp only [Option.some_bind]
  rw [tsClose_bracket rest hrB]
  rfl

theorem stripLeadBracket_ne (a : Char) (t u : Str) (ha : a ≠ '[') :
    stripLeadBracket ((a :: t) ++ u) = (a :: t) ++ u := by
  rw [List.cons_append, stripLeadBracket_cons a _ ha]

/-- Taken from the claim's words: a date token whose separators are dash,
dot or slash and whose three components are each one to four digits. -/
def specClaimDateToken (t1 : Str) (s1 : Char) (t2 : Str) (s2 : Char) (t3 : Str) : Prop :=
  (1 ≤ t1.length ∧ t1.length ≤ 4 ∧ t1.all isAsciiDigit = true) ∧
  s1 ∈ ['-', '.', '/'] ∧
  (1 ≤ t2.length ∧ t2.length ≤ 4 ∧ t2.all isAsciiDigit = true) ∧
  s2 ∈ ['-', '.', '/'] ∧
  (1 ≤ t3.length ∧ t3.length ≤ 4 ∧ t3.all isAsciiDigit = true)

instance (t1 : Str) (s1 : Char) (t2 : Str) (s2 : Char) (t3 : Str) :
    Decidable (specClaimDateToken t1 s1 t2 s2 t3) := by
  unfold specClaimDateToken
  infer_instance

/-- C8 counterexample: the line starting with the date token 12/05/2 whose
components are each one to four digits wide (the third one one digit wide),
followed by a comma, a valid time token and the Android space-dash-space
separator, does not match the timestamp pattern: the pattern requires the
third date component to be two to four digits wide, so the claimed
"each 1-4 digits" acceptance is wrong. -/
theorem claim8_counterexample :
    specClaimDateToken ("12".toList) '/' ("05".toList) '/' ("2".toList) ∧
    "12/05/2, 9:00 - Alice: hi".toList =
      ("12".toList ++ '/' :: ("05".toList ++ '/' ::
        ("2".toList ++ ", 9:00 - Alice: hi".toList))) ∧
    tsMatch ("12/05/2, 9:00 - Alice: hi".toList) = none := by decide

/-- C8 amended: the timestamp grammar accepts date tokens whose separators
are any of slash, dot, dash and whose three components are 1-4, 1-2 and 2-4
digits wide respectively: every line built from such a date token, an
optional comma, whitespace, a valid time token and one of the two dialect
separators (Android space-dash-space, or the iOS closing bracket, the
remainder not itself starting the optional space-dash-space sequence)
matches, capturing exactly the date substring and the time substring. -/
theorem claim8_amended (d1 d2 d3 hh mm rest : Str) (s1 s2 tsep : Char)
    (hd1 : d1.all isAsciiDigit = true) (hl1 : 1 ≤ d1.length) (hu1 : d1.length ≤ 4)
    (hd2 : d2.all isAsciiDigit = true) (hl2 : 1 ≤ d2.length) (hu2 : d2.length ≤ 2)
    (hd3 : d3.all isAsciiDigit = true) (hl3 : 2 ≤ d3.length) (hu3 : d3.length ≤ 4)
    (hs1 : s1 ∈ ['-', '.', '/']) (hs2 : s2 ∈ ['-', '.', '/'])
    (hhh : hh.all isAsciiDigit = true) (hlh : 1 ≤ hh.length) (huh : hh.length ≤ 2)
    (hmm2 : mm.all isAsciiDigit = true) (hlm : mm.length = 2)
    (hts : tsep ∈ [':', '.']) (hrB : rest.head? ≠ some '-') :
    tsMatch (d1 ++ (s1 :: (d2 ++ (s2 :: (d3 ++ (',' :: ' ' ::
        (hh ++ (tsep :: (mm ++ (' ' :: '-' :: ' ' :: rest)))))))))) =
      some (d1 ++ s1 :: d2 ++ s2 :: d3, hh ++ tsep :: mm, rest) ∧
    tsMatch ('[' :: (d1 ++ (s1 :: (d2 ++ (s2 :: (d3 ++ (',' :: ' ' ::
        (hh ++ (tsep :: (mm ++ (']' :: ' ' :: rest))))))))))) =
      some (d1 ++ s1 :: d2 ++ s2 :: d3, hh ++ tsep :: mm, ' ' :: rest) := by
  obtain ⟨a, d1t, rfl⟩ : ∃ a t, d1 = a :: t := by
    cases d1 with
    | nil => exact absurd hl1 (by simp)
    | cons a t => exact ⟨a, t, rfl⟩
  obtain ⟨b, hht, rfl⟩ : ∃ b t, hh = b :: t := by
    cases hh with
    | nil => exact absurd hlh (by simp)
    | cons b t => exact ⟨b, t, rfl⟩
  have ha : isAsciiDigit a = true := by
    simp only [List.all_cons, Bool.and_eq_true] at hd1
    exact hd1.1
  constructor
  · simp only [tsMatch]
    rw [stripLeadBracket_ne a d1t _ (digit_ne_lbracket a ha)]
    rw [digitsBetween_append_cons 1 4 _ _ _ hd1 hl1 hu1 (sep_not_digit s1 hs1)]
    simp only [Option.bind_eq_bind, Option.some_bind]
    rw [charIn_cons _ _ _ hs1]
    simp only [Option.some_bind]
    rw [digitsBetween_append_cons 1 2 _ _ _ hd2 hl2 hu2 (sep_not_digit s2 hs2)]
    simp only [Option.some_bind]
    rw [charIn_cons _ _ _ hs2]
    simp only [Option.some_bind]
    rw [digitsBetween_append_cons 2 4 _ _ _ hd3 hl3 hu3 (by decide)]
    simp only [Option.some_bind]
    rw [tsAfterDate_android _ mm rest hht b tsep hhh huh hmm2 hlm hts]
  · simp only [tsMatch]
    rw [show stripLeadBracket ('[' :: ((a :: d1t) ++ (s1 :: (d2 ++ (s2 :: (d3 ++ (',' :: ' ' ::
        ((b :: hht) ++ (tsep :: (mm ++ (']' :: ' ' :: rest))))))))))) =
      (a :: d1t) ++ (s1 :: (d2 ++ (s2 :: (d3 ++ (',' :: ' ' ::
        ((b :: hht) ++ (tsep :: (mm ++ (']' :: ' ' :: rest))))))))) from rfl]
    rw [digitsBetween_append_cons 1 4 _ _ _ hd1 hl1 hu1 (sep_not_digit s1 hs1)]
    simp only [Option.bind_eq_bind, Option.some_bind]
    rw [charIn_cons _ _ _ hs1]
    simp only [Option.some_bind]
    rw [digitsBetween_append_cons 1 2 _ _ _ hd2 hl2 hu2 (sep_not_digit s2 hs2)]
    simp only [Option.some_bind]
    rw [charIn_cons _ _ _ hs2]
    simp only [Option.some_bind]
    rw [digitsBetween_append_cons 2 4 _ _ _ hd3 hl3 hu3 (by decide)]
    simp only [Option.some_bind]
    rw [tsAfterDate_bracket _ mm rest hht b tsep hhh huh hmm2 hlm hts hrB]

/-- Closed instance of the amended grammar theorem on both dialects. -/
theorem claim8_amended_witness :
    tsMatch ("12/05/23, 9:00 - Alice: hi".toList) =
      some ("12/05/23".toList, "9:00".toList, "Alice: hi".toList) ∧
    tsMatch ("[12/05/23, 9:00] Alice: hi".toList) =
      some ("12/05/23".toList, "9:00".toList, " Alice: hi".toList) :=
  claim8_amended ("12".toList) ("05".toList) ("23".toList) ("9".toList) ("00".toList)
    ("Alice: hi".toList) '/' '/' ':'
    (by decide) (by decide) (by decide) (by decide) (by decide) (by decide)
    (by decide) (by decide) (by decide) (by decide) (by decide)
    (by decide) (by decide) (by decide) (by decide) (by decide) (by decide) (by decide)

-- ---------------------------------------------------------------------------
-- Claim 7: one-sided days
-- ---------------------------------------------------------------------------

/-- How many messages of the list fall on the day with the given key. -/
def specDayTotal (l : List Message) (dk : Str) : Nat :=
  l.countP (fun m => decide (dateKeyOf m.date = dk))

/-- How many messages of the list fall on the day with the given key and
come from the given sender. -/
def specDaySenderCount (l : List Message) (dk s : Str) : Nat :=
  l.countP (fun m => decide (dateKeyOf m.date = dk ∧ m.sender = s))

/-- First-occurrence deduplication of day keys (Map insertion order). -/
def dedupFirstStr (l : List Str) : List Str :=
  l.foldl (fun acc y => if y ∈ acc then acc else acc ++ [y]) []

/-- Taken from the claim's words: the number of calendar days on which more
than ten messages were written and the given sender contributed strictly
more than three quarters of them. -/
def specOneSidedDays (l : List Message) (s : Str) : Nat :=
  (dedupFirstStr (l.map (fun m => dateKeyOf m.date))).countP
    (fun dk => decide (10 < specDayTotal l dk ∧
      3 * specDayTotal l dk < 4 * specDaySenderCount l dk s))

theorem mem_dedupAux (xs acc : List Str) (a : Str) :
    (a ∈ xs.foldl (fun acc y => if y ∈ acc then acc else acc ++ [y]) acc) ↔
      (a ∈ acc ∨ a ∈ xs) := by
  induction xs generalizing acc with
  | nil => simp
  | cons x rest ih =>
    rw [List.foldl_cons, ih]
    by_cases hx : x ∈ acc
    · rw [if_pos hx]
      simp only [List.mem_cons]
      constructor
      · rintro (h | h)
        · exact Or.inl h
        · exact Or.inr (Or.inr h)
      · rintro (h | rfl | h)
        · exact Or.inl h
        · exact Or.inl hx
        · exact Or.inr h
    · rw [if_neg hx]
      simp only [List.mem_append, List.mem_singleton, List.mem_cons, List.not_mem_nil, or_false]
      constructor
      · rintro ((h | rfl) | h)
        · exact Or.inl h
        · exact Or.inr (Or.inl rfl)
        · exact Or.inr (Or.inr h)
      · rintro (h | rfl | h)
        · exact Or.inl (Or.inl h)
        · exact Or.inl (Or.inr rfl)
        · exact Or.inr h

theorem mem_dedupFirstStr (xs : List Str) (a : Str) :
    a ∈ dedupFirstStr xs ↔ a ∈ xs := by
  unfold dedupFirstStr
  rw [mem_dedupAux]
  simp

theorem dedupFirstStr_snoc (xs : List Str) (x : Str) :
    dedupFirstStr (xs ++ [x]) =
      if x ∈ dedupFirstStr xs then dedupFirstStr xs else dedupFirstStr xs ++ [x] := by
  unfold dedupFirstStr
  rw [List.foldl_append, List.foldl_cons, List.foldl_nil]

theorem specDayTotal_snoc (l : List Message) (m : Message) (dk : Str) :
    specDayTotal (l ++ [m]) dk =
      specDayTotal l dk + (if dateKeyOf m.date = dk then 1 else 0) := by
  unfold specDayTotal
  rw [List.countP_append, List.countP_cons]
  simp [List.countP_nil]

theorem specDaySenderCount_snoc (l : List Message) (m : Message) (dk s : Str) :
    specDaySenderCount (l ++ [m]) dk s =
      specDaySenderCount l dk s + (if dateKeyOf m.date = dk ∧ m.sender = s then 1 else 0) := by
  unfold specDaySenderCount
  rw [List.countP_append, List.countP_cons]
  simp [List.countP_nil]

theorem stepMsg_dailyBreakdown (env : JsEnv) (st : AState) (m : Message) :
    (stepMsg env st m).dailyBreakdown =
      AL.upsert st.dailyBreakdown (dateKeyOf m.date) []
        (fun inner => AL.bump inner m.sender) := rfl

/-- The per-day breakdown after the engine loop: nodup keys in
first-occurrence order, and each day's inner table counts that day's
messages per sender, with the day's total as the value sum. -/
theorem breakdown_inv (env : JsEnv) (l : List Message) :
    (AL.keys ((l.foldl (stepMsg env) initAState).dailyBreakdown)).Nodup ∧
    AL.keys ((l.foldl (stepMsg env) initAState).dailyBreakdown) =
      dedupFirstStr (l.map (fun m => dateKeyOf m.date)) ∧
    ∀ k inner, AL.find? ((l.foldl (stepMsg env) initAState).dailyBreakdown) k = some inner →
      (AL.keys inner).Nodup ∧ AL.sumVals inner = specDayTotal l k ∧
      ∀ s, (AL.find? inner s).getD 0 = specDaySenderCount l k s := by
  induction l using List.reverseRecOn with
  | nil =>
    refine ⟨List.nodup_nil, rfl, ?_⟩
    intro k inner hk
    cases hk
  | append_singleton l m ih =>
    obtain ⟨ih1, ih2, ih3⟩ := ih
    rw [List.foldl_append, List.foldl_cons, List.foldl_nil, stepMsg_dailyBreakdown]
    set bd := (l.foldl (stepMsg env) initAState).dailyBreakdown with hbd
    refine ⟨?_, ?_, ?_⟩
    · exact AL.nodup_keys_upsert _ _ _ _ ih1
    · rw [AL.keys_upsert]
      simp only [List.map_append, List.map_cons, List.map_nil]
      rw [dedupFirstStr_snoc, ← ih2]
    · intro k inner hk
      by_cases hkey : k = dateKeyOf m.date
      · subst hkey
        rw [AL.find?_upsert_self] at hk
        rcases hfind : AL.find? bd (dateKeyOf m.date) with _ | inner0
        · rw [hfind] at hk
          simp only [Option.getD_none] at hk
          have hnotin : dateKeyOf m.date ∉ l.map (fun m => dateKeyOf m.date) := by
            intro hmem
            have hin : dateKeyOf m.date ∈ AL.keys bd := by
              rw [ih2, mem_dedupFirstStr]
              exact hmem
            rw [← AL.find?_isSome_iff, hfind] at hin
            cases hin
          have htot0 : specDayTotal l (dateKeyOf m.date) = 0 := by
            unfold specDayTotal
            rw [List.countP_eq_zero]
            intro m' hm'
            simp only [decide_eq_true_eq]
            intro he
            exact hnotin (by rw [← he]; exact List.mem_map_of_mem _ hm')
          have hsc0 : ∀ s, specDaySenderCount l (dateKeyOf m.date) s = 0 := by
            intro s
            unfold specDaySenderCount
            rw [List.countP_eq_zero]
            intro m' hm'
            simp only [decide_eq_true_eq]
            rintro ⟨he, _⟩
            exact hnotin (by rw [← he]; exact List.mem_map_of_mem _ hm')
          injection hk with hk
          subst hk
          refine ⟨AL.nodup_keys_bump _ _ List.nodup_nil, ?_, ?_⟩
          · rw [AL.sumVals_bump [] m.sender List.nodup_nil, specDayTotal_snoc,
              if_pos rfl, htot0]
            rfl
          · intro s
            by_cases hs : s = m.sender
            · subst hs
              rw [AL.find?_bump_self, Option.getD_some, specDaySenderCount_snoc,
                if_pos ⟨rfl, rfl⟩, hsc0 m.sender]
              rfl
            · rw [AL.find?_bump_ne _ _ _ hs, specDaySenderCount_snoc,
                if_neg (fun hc => hs hc.2.symm), hsc0 s]
              rfl
        · rw [hfind] at hk
          simp only [Option.getD_some] at hk
          obtain ⟨hn0, hs0, hl0⟩ := ih3 (dateKeyOf m.date) inner0 hfind
          injection hk with hk
          subst hk
          refine ⟨AL.nodup_keys_bump _ _ hn0, ?_, ?_⟩
          · rw [AL.sumVals_bump inner0 m.sender hn0, specDayTotal_snoc, if_pos rfl, hs0]
          · intro s
            by_cases hs : s = m.sender
            · subst hs
              rw [AL.find?_bump_self, Option.getD_some, specDaySenderCount_snoc,
                if_pos ⟨rfl, rfl⟩, ← hl0 m.sender]
            · rw [AL.find?_bump_ne _ _ _ hs, specDaySenderCount_snoc,
                if_neg (fun hc => hs hc.2.symm), hl0 s]
              omega
      · rw [AL.find?_upsert_ne _ _ _ _ _ hkey] at hk
        obtain ⟨hn0, hs0, hl0⟩ := ih3 k inner hk
        refine ⟨hn0, ?_, ?_⟩
        · rw [specDayTotal_snoc, if_neg (fun he => hkey he.symm), hs0]
          omega
        · intro s
          rw [specDaySenderCount_snoc, if_neg (fun hc => hkey hc.1.symm), hl0 s]
          omega

/-- One day of the one-sided pass: the given sender's counter rises by the
number of inner entries carrying the sender's key and a strictly-greater-
than-three-quarters share. -/
theorem dayFold_oneSided (e2 : List (Str × Nat)) (t : Nat) (um : List (Str × UserAgg))
    (s : Str) (u : UserAgg) (hu : AL.find? um s = some u) :
    ∃ u', AL.find? (e2.foldl (fun um p =>
        if 4 * p.2 > 3 * t then
          if (AL.find? um p.1).isSome then
            AL.modify um p.1 (fun v => { v with oneSidedCount := v.oneSidedCount + 1 })
          else um
        else um) um) s = some u' ∧
      u'.oneSidedCount = u.oneSidedCount +
        e2.countP (fun p => decide (p.1 = s ∧ 3 * t < 4 * p.2)) := by
  induction e2 generalizing um u with
  | nil => exact ⟨u, hu, by simp⟩
  | cons p rest ih =>
    rw [List.foldl_cons]
    by_cases hq : 4 * p.2 > 3 * t
    · rw [if_pos hq]
      by_cases hp : p.1 = s
      · subst hp
        rw [if_pos (by simp [hu])]
        obtain ⟨u', h1, h2⟩ := ih (AL.modify um p.1
            (fun v => { v with oneSidedCount := v.oneSidedCount + 1 }))
          { u with oneSidedCount := u.oneSidedCount + 1 }
          (by rw [AL.find?_modify_self, hu]; rfl)
        refine ⟨u', h1, ?_⟩
        have h2' : u'.oneSidedCount = u.oneSidedCount + 1 +
            rest.countP (fun q => decide (q.1 = p.1 ∧ 3 * t < 4 * q.2)) := by
          simpa using h2
        rw [h2', List.countP_cons]
        have hcond : decide (p.1 = p.1 ∧ 3 * t < 4 * p.2) = true := by
          simp [hq]
        rw [hcond, if_pos rfl]
        omega
      · have hfind2 :
            AL.find? (if (AL.find? um p.1).isSome then
              AL.modify um p.1 (fun v => { v with oneSidedCount := v.oneSidedCount + 1 })
            else um) s = some u := by
          split
          · rw [AL.find?_modify_ne um p.1 s _ (fun he => hp he.symm)]
            exact hu
          · exact hu
        obtain ⟨u', h1, h2⟩ := ih _ u hfind2
        refine ⟨u', h1, ?_⟩
        rw [h2, List.countP_cons]
        have hcond : decide (p.1 = s ∧ 3 * t < 4 * p.2) = false := by
          simp [hp]
        rw [hcond, if_neg (by simp)]
        omega
    · rw [if_neg hq]
      obtain ⟨u', h1, h2⟩ := ih um u hu
      refine ⟨u', h1, ?_⟩
      rw [h2, List.countP_cons]
      have hcond : decide (p.1 = s ∧ 3 * t < 4 * p.2) = false := by
        simp only [gt_iff_lt, not_lt] at hq
        simp [Nat.not_lt.mpr hq]
      rw [hcond, if_neg (by simp)]
      omega

/-- The whole one-sided pass: the given sender's counter rises by the sum
over recorded days of that day's qualifying-entry count (zero for days at
or below ten messages). -/
theorem applyOneSided_oneSided (bd : List (Str × List (Str × Nat)))
    (um : List (Str × UserAgg)) (s : Str) (u : UserAgg)
    (hu : AL.find? um s = some u) :
    ∃ u', AL.find? (applyOneSided um bd) s = some u' ∧
      u'.oneSidedCount = u.oneSidedCount +
        (bd.map (fun e => if AL.sumVals e.2 > 10 then
          e.2.countP (fun p => decide (p.1 = s ∧ 3 * AL.sumVals e.2 < 4 * p.2))
          else 0)).sum := by
  induction bd generalizing um u with
  | nil => exact ⟨u, hu, by simp⟩
  | cons e rest ih =>
    have hstep : applyOneSided um (e :: rest) = applyOneSided
        (if AL.sumVals e.2 > 10 then
          e.2.foldl (fun um p =>
            if 4 * p.2 > 3 * AL.sumVals e.2 then
              if (AL.find? um p.1).isSome then
                AL.modify um p.1 (fun v => { v with oneSidedCount := v.oneSidedCount + 1 })
              else um
            else um) um
        else um) rest := rfl
    rw [hstep]
    by_cases ht : AL.sumVals e.2 > 10
    · rw [if_pos ht]
      obtain ⟨u1, hu1, ho1⟩ := dayFold_oneSided e.2 (AL.sumVals e.2) um s u hu
      obtain ⟨u', h1, h2⟩ := ih _ u1 hu1
      refine ⟨u', h1, ?_⟩
      rw [h2, ho1, List.map_cons, List.sum_cons, if_pos ht]
      omega
    · rw [if_neg ht]
      obtain ⟨u', h1, h2⟩ := ih um u hu
      refine ⟨u', h1, ?_⟩
      rw [h2, List.map_cons, List.sum_cons, if_neg ht]
      omega

/-- The loop never touches the one-sided counter: every aggregate coming
out of the message fold still carries a zero. -/
theorem foldState_oneSided_zero (env : JsEnv) (l : List Message) (st0 : AState)
    (h0 : ∀ k u, AL.find? st0.userMap k = some u → u.oneSidedCount = 0) :
    ∀ k u, AL.find? ((l.foldl (stepMsg env) st0).userMap) k = some u →
      u.oneSidedCount = 0 := by
  induction l generalizing st0 with
  | nil => exact h0
  | cons m rest ih =>
    rw [List.foldl_cons]
    refine ih (stepMsg env st0 m) ?_
    intro k u hk
    rw [show (stepMsg env st0 m).userMap = AL.upsert st0.userMap m.sender UserAgg.init
        (updateAgg env st0.lastSender st0.lastMsgTime m) from rfl] at hk
    by_cases hks : k = m.sender
    · subst hks
      rw [AL.find?_upsert_self] at hk
      injection hk with hk
      subst hk
      rw [updateAgg_oneSided]
      rcases hf : AL.find? st0.userMap m.sender with _ | v
      · rfl
      · exact h0 m.sender v hf
    · rw [AL.find?_upsert_ne _ _ _ _ _ hks] at hk
      exact h0 k u hk

theorem sum_map_ite_one {α : Type} (l : List α) (P : α → Prop) [DecidablePred P] :
    (l.map (fun a => if P a then 1 else 0)).sum = l.countP (fun a => decide (P a)) := by
  induction l with
  | nil => rfl
  | cons a t ih =>
    rw [List.map_cons, List.sum_cons, List.countP_cons, ih]
    by_cases h : P a
    · simp [h, Nat.add_comm]
    · simp [h]

theorem countP_key_nodup (e2 : List (Str × Nat)) (s : Str) (t : Nat)
    (hnd : (AL.keys e2).Nodup) (ht : 0 < t) :
    e2.countP (fun p => decide (p.1 = s ∧ 3 * t < 4 * p.2)) =
      if 3 * t < 4 * ((AL.find? e2 s).getD 0) then 1 else 0 := by
  induction e2 with
  | nil =>
    rw [List.countP_nil]
    rw [show (AL.find? ([] : List (Str × Nat)) s).getD 0 = 0 from rfl]
    rw [if_neg (by omega)]
  | cons p rest ih =>
    simp only [AL.keys, List.map_cons, List.nodup_cons] at hnd
    rw [List.countP_cons]
    by_cases hp : p.1 = s
    · have hrest0 : rest.countP (fun q => decide (q.1 = s ∧ 3 * t < 4 * q.2)) = 0 := by
        rw [List.countP_eq_zero]
        intro q hq
        simp only [decide_eq_true_eq]
        rintro ⟨hqs, _⟩
        have hmem : q.1 ∈ List.map Prod.fst rest := List.mem_map_of_mem Prod.fst hq
        rw [hqs, ← hp] at hmem
        exact hnd.1 hmem
      rw [hrest0]
      rw [show AL.find? (p :: rest) s = some p.2 from by unfold AL.find?; rw [if_pos hp]]
      rw [Option.getD_some]
      by_cases hq : 3 * t < 4 * p.2
      · rw [if_pos hq]
        have hc : decide (p.1 = s ∧ 3 * t < 4 * p.2) = true := by simp [hp, hq]
        rw [hc, if_pos rfl]
      · rw [if_neg hq]
        have hc : decide (p.1 = s ∧ 3 * t < 4 * p.2) = false := by simp [hq]
        rw [hc, if_neg (show ¬(false = true) from by simp)]
    · rw [show AL.find? (p :: rest) s = AL.find? rest s from by
        simp only [AL.find?]
        rw [if_neg hp]]
      rw [ih hnd.2]
      have hc : decide (p.1 = s ∧ 3 * t < 4 * p.2) = false := by simp [hp]
      rw [hc, if_neg (show ¬(false = true) from by simp)]
      omega

theorem countP_entries_keys {β : Type} (l : List (Str × β)) (p : Str → Bool) :
    l.countP (fun e => p e.1) = (AL.keys l).countP p := by
  induction l with
  | nil => rfl
  | cons e t ih =>
    rw [List.countP_cons, ih]
    rw [show AL.keys (e :: t) = e.1 :: AL.keys t from rfl, List.countP_cons]

/-- C7: the one-sided-day counter reported for every user equals the number
of calendar days on which more than ten messages were written and that user
contributed strictly more than three quarters of them; every qualifying day
adds exactly one, and days failing either threshold add nothing. -/
theorem claim7_thm (env : JsEnv) (clock : Int) (msgs : List Message) (f : Option Int)
    (h : yearFiltered msgs f ≠ []) :
    ∀ stat ∈ (analyzeMessages env clock msgs f).users,
      stat.oneSidedConversationsCount =
        specOneSidedDays (yearFiltered msgs f) stat.name := by
  rw [analyzeMessages_nonempty env clock msgs f h]
  set l := yearFiltered msgs f with hl
  set st := l.foldl (stepMsg env) initAState with hst
  set UM := applyOneSided st.userMap st.dailyBreakdown with hUM
  intro stat hstat
  have husers : (analyzeBody env msgs l).users =
      (sortDescBy (fun n => (((AL.find? UM n).map UserAgg.count).getD 0))
        (AL.keys UM)).enum.map
        (fun p => mkUserStat p.1 p.2 ((AL.find? UM p.2).getD UserAgg.init)) := rfl
  rw [husers] at hstat
  obtain ⟨q, hq, rfl⟩ := List.mem_map.mp hstat
  have hname : (mkUserStat q.1 q.2 ((AL.find? UM q.2).getD UserAgg.init)).name = q.2 := rfl
  have hosc : (mkUserStat q.1 q.2
      ((AL.find? UM q.2).getD UserAgg.init)).oneSidedConversationsCount =
      ((AL.find? UM q.2).getD UserAgg.init).oneSidedCount := rfl
  rw [hname, hosc]
  have hmemk : q.2 ∈ AL.keys UM := by
    have h1 : q.2 ∈ (sortDescBy (fun n => (((AL.find? UM n).map UserAgg.count).getD 0))
        (AL.keys UM)).enum.map Prod.snd := List.mem_map_of_mem Prod.snd hq
    rw [List.enum_map_snd] at h1
    exact ((sortDescBy_perm _ _).mem_iff).mp h1
  have hmem0 : q.2 ∈ AL.keys st.userMap := by
    rw [← applyOneSided_keys st.userMap st.dailyBreakdown]
    exact hmemk
  obtain ⟨u0, hu0⟩ : ∃ u0, AL.find? st.userMap q.2 = some u0 := by
    have hsome := (AL.find?_isSome_iff st.userMap q.2).mpr hmem0
    rcases hf0 : AL.find? st.userMap q.2 with _ | u0
    · rw [hf0] at hsome
      cases hsome
    · exact ⟨u0, rfl⟩
  have hzero : u0.oneSidedCount = 0 :=
    foldState_oneSided_zero env l initAState (by intro k u hk; cases hk) q.2 u0 hu0
  obtain ⟨u', hu', ho'⟩ := applyOneSided_oneSided st.dailyBreakdown st.userMap q.2 u0 hu0
  rw [show AL.find? UM q.2 = some u' from hu', Option.getD_some, ho', hzero]
  obtain ⟨hbnd, hbkeys, hbfacts⟩ := breakdown_inv env l
  have hmapc : st.dailyBreakdown.map (fun e => if AL.sumVals e.2 > 10 then
      e.2.countP (fun p => decide (p.1 = q.2 ∧ 3 * AL.sumVals e.2 < 4 * p.2)) else 0)
      = st.dailyBreakdown.map (fun e => if 10 < specDayTotal l e.1 ∧
          3 * specDayTotal l e.1 < 4 * specDaySenderCount l e.1 q.2 then 1 else 0) := by
    apply List.map_congr_left
    intro e he
    obtain ⟨hnin, hsv, hlk⟩ := hbfacts e.1 e.2 (AL.find?_of_mem_nodup _ e he hbnd)
    rw [hsv]
    by_cases h10 : specDayTotal l e.1 > 10
    · rw [if_pos h10]
      rw [countP_key_nodup e.2 q.2 (specDayTotal l e.1) hnin (by omega)]
      rw [hlk q.2]
      by_cases hsh : 3 * specDayTotal l e.1 < 4 * specDaySenderCount l e.1 q.2
      · rw [if_pos hsh, if_pos ⟨h10, hsh⟩]
      · rw [if_neg hsh, if_neg (fun hc => hsh hc.2)]
    · rw [if_neg h10, if_neg (fun hc => h10 hc.1)]
  rw [hmapc]
  rw [sum_map_ite_one (st.dailyBreakdown) (fun e => 10 < specDayTotal l e.1 ∧
    3 * specDayTotal l e.1 < 4 * specDaySenderCount l e.1 q.2)]
  rw [countP_entries_keys st.dailyBreakdown (fun k => decide (10 < specDayTotal l k ∧
    3 * specDayTotal l k < 4 * specDaySenderCount l k q.2))]
  rw [hbkeys]
  rw [show specOneSidedDays l q.2 = (dedupFirstStr (l.map (fun m => dateKeyOf m.date))).countP
    (fun dk => decide (10 < specDayTotal l dk ∧
      3 * specDayTotal l dk < 4 * specDaySenderCount l dk q.2)) from rfl]
  omega

def c7Msg (t : Int) (s : Str) : Message := { date := t, sender := s, content := "x".toList }

def c7Msgs : List Message :=
  [c7Msg 0 ("A".toList), c7Msg 60000 ("A".toList), c7Msg 120000 ("A".toList),
   c7Msg 180000 ("A".toList), c7Msg 240000 ("A".toList), c7Msg 300000 ("A".toList),
   c7Msg 360000 ("A".toList), c7Msg 420000 ("A".toList), c7Msg 480000 ("A".toList),
   c7Msg 540000 ("B".toList), c7Msg 600000 ("B".toList)]

/-- Closed instance: a single day with eleven messages of which one sender
wrote nine credits that sender with exactly one one-sided day and the other
sender with none. -/
theorem claim7_witness :
    yearFiltered c7Msgs none ≠ [] ∧
    specOneSidedDays (yearFiltered c7Msgs none) ("A".toList) = 1 ∧
    specOneSidedDays (yearFiltered c7Msgs none) ("B".toList) = 0 ∧
    ∀ stat ∈ (analyzeMessages asciiEnv 0 c7Msgs none).users,
      stat.oneSidedConversationsCount =
        specOneSidedDays (yearFiltered c7Msgs none) stat.name :=
  ⟨by decide, by decide, by decide, claim7_thm asciiEnv 0 c7Msgs none (by decide)⟩
